import Mathlib

/-!
A shallow embedding of `src/main.c` of generate-itermcolors.

C strings are modelled by the list of their bytes before the terminating NUL,
each byte given as its `unsigned char` value (a natural number below 256).
A `double` is modelled exactly, as a dyadic rational `mant / 2 ^ exp`, and the
floating-point operations round to nearest, ties to even, with a 53-bit
significand (IEEE 754 binary64).  Every `exit(1)` of the program is a
constructor of `Failure` carrying the text written to `stderr`.
-/

namespace GenerateItermcolors

/-! ## C strings -/

/-- The bytes of an ASCII string literal. -/
def cstr (s : String) : List Nat := s.toList.map Char.toNat

/-- `strlen`. -/
def strlen (s : List Nat) : Nat := s.length

/-- `strcspn(s, reject)`: length of the longest prefix of `s` that has no byte of `reject`. -/
def strcspn : List Nat → List Nat → Nat
  | [], _ => 0
  | c :: cs, reject => if c ∈ reject then 0 else strcspn cs reject + 1

/-- `strchr(s, c)`: the suffix of `s` that starts at the first occurrence of `c`,
or `none` for the null pointer.  For `c = 0` the terminator itself is found. -/
def strchr : List Nat → Nat → Option (List Nat)
  | [], c => if c = 0 then some [] else none
  | x :: xs, c => if x = c then some (x :: xs) else strchr xs c

/-- The conversion `(int)n` of a `size_t` to a 32-bit `int`. -/
def cast_int (n : Nat) : Int :=
  if n % 2 ^ 32 < 2 ^ 31 then (n % 2 ^ 32 : Nat) else (n % 2 ^ 32 : Nat) - 2 ^ 32

/-- The conversion `%*s` of `printf`: `width` is a minimum field width, the
string is never truncated; it is padded with blanks on the left, or on the
right when the width is negative. -/
def printf_width_s (width : Int) (s : List Nat) : List Nat :=
  if 0 ≤ width then List.replicate (width.toNat - s.length) 32 ++ s
  else s ++ List.replicate ((-width).toNat - s.length) 32

/-! ## intscan -/

/-- Lookup table for digit values, `-1` stored as the `uchar` 255 (lines 19-35). -/
def table : List Nat := [
  255, 255, 255, 255, 255, 255, 255, 255, 255, 255, 255, 255, 255, 255, 255, 255, 255, 255, 255,
  255, 255, 255, 255, 255, 255, 255, 255, 255, 255, 255, 255, 255, 255, 255, 255, 255, 255, 255,
  255, 255, 255, 255, 255, 255, 255, 255, 255, 255, 0,  1,  2,  3,  4,  5,  6,  7,  8,
  9,  255, 255, 255, 255, 255, 255, 255, 10, 11, 12, 13, 14, 15, 16, 17, 18, 19, 20,
  21, 22, 23, 24, 25, 26, 27, 28, 29, 30, 31, 32, 33, 34, 35, 255, 255, 255, 255,
  255, 255, 10, 11, 12, 13, 14, 15, 16, 17, 18, 19, 20, 21, 22, 23, 24, 25, 26,
  27, 28, 29, 30, 31, 32, 33, 34, 35, 255, 255, 255, 255, 255, 255, 255, 255, 255, 255,
  255, 255, 255, 255, 255, 255, 255, 255, 255, 255, 255, 255, 255, 255, 255, 255, 255, 255, 255,
  255, 255, 255, 255, 255, 255, 255, 255, 255, 255, 255, 255, 255, 255, 255, 255, 255, 255, 255,
  255, 255, 255, 255, 255, 255, 255, 255, 255, 255, 255, 255, 255, 255, 255, 255, 255, 255, 255,
  255, 255, 255, 255, 255, 255, 255, 255, 255, 255, 255, 255, 255, 255, 255, 255, 255, 255, 255,
  255, 255, 255, 255, 255, 255, 255, 255, 255, 255, 255, 255, 255, 255, 255, 255, 255, 255, 255,
  255, 255, 255, 255, 255, 255, 255, 255, 255, 255, 255, 255, 255, 255, 255, 255, 255, 255, 255,
  255, 255, 255, 255, 255, 255, 255, 255, 255]

/-- The expression `table[(uchar)c]`; the cast to `uchar` is the reduction modulo 256,
so the index is always inside the table. -/
def table_at (c : Nat) : Nat := table.getD (c % 256) 255

/-! ## double -/

/-- A finite non-negative `double`, with value `mant / 2 ^ exp`. -/
structure double where
  mant : Nat
  exp : Nat
deriving DecidableEq, Repr

/-- The exact value of a `double`. -/
def double.toRat (x : double) : ℚ := (x.mant : ℚ) / 2 ^ x.exp

/-- The quotient `a / b` rounded to the nearest integer, ties to even. -/
def round_half_even (a b : Nat) : Nat :=
  if 2 * (a % b) < b then a / b
  else if b < 2 * (a % b) then a / b + 1
  else if (a / b) % 2 = 0 then a / b else a / b + 1

/-- The least `e` at or after the given one with `b * 2 ^ 52 ≤ a * 2 ^ e`. -/
def norm_exp (a b : Nat) : Nat → Nat → Nat
  | 0, e => e
  | fuel + 1, e => if b * 2 ^ 52 ≤ a * 2 ^ e then e else norm_exp a b fuel (e + 1)

/-- The `double` nearest to `a / b` (ties to even), for `0 ≤ a / b < 2 ^ 53` and `0 < b`:
the significand is scaled into `[2 ^ 52, 2 ^ 53]` and rounded to an integer. -/
def round_to_double (a b : Nat) : double :=
  if a = 0 then ⟨0, 0⟩
  else
    let e := norm_exp a b (53 + b) 0
    ⟨round_half_even (a * 2 ^ e) b, e⟩

/-- The conversion of a small non-negative `int` to `double`, which is exact. -/
def double_of_int (n : Nat) : double := ⟨n, 0⟩

/-- The division `x / y` of two `double`s. -/
def double_div (x y : double) : double :=
  round_to_double (x.mant * 2 ^ y.exp) (y.mant * 2 ^ x.exp)

/-- The product `x * y` of two `double`s. -/
def double_mul (x y : double) : double :=
  round_to_double (x.mant * y.mant) (2 ^ (x.exp + y.exp))

/-! ## itermcolor item -/

/-- The places where the program writes to `stderr` and calls `exit(1)`. -/
inductive Failure where
  /-- Lines 240-243: no `#` found. -/
  | MissingColor (stderr : List Nat)
  /-- Lines 244-248: the token has not 7 characters. -/
  | WrongLength (stderr : List Nat)
  /-- Lines 251-254: a digit is not in the table. -/
  | InvalidDigit (stderr : List Nat)
  /-- Lines 108-113: `xml_node_set_string_content` on a node that is not `XCT_STRING`. -/
  | NotString (stderr : List Nat)
  /-- Lines 123-128: `xml_node_append_xml_node_content` on a node that is not a list. -/
  | NotNodeList (stderr : List Nat)
deriving DecidableEq, Repr

/-- The outcome of a function that may call `exit(1)`. -/
inductive Outcome (α : Type) where
  | exit (f : Failure)
  | ok (a : α)
deriving DecidableEq, Repr

/-- Sequencing: an `exit` ends the program. -/
def Outcome.bind {α β : Type} (x : Outcome α) (f : α → Outcome β) : Outcome β :=
  match x with
  | .exit e => .exit e
  | .ok a => f a

instance : Monad Outcome where
  pure := Outcome.ok
  bind := Outcome.bind

structure color_dict_srgb where
  r : double
  g : double
  b : double
deriving DecidableEq, Repr

structure itermcolor_item where
  key : List Nat
  dict : color_dict_srgb
deriving DecidableEq, Repr

/-- The byte `color[i]`; the byte after the last one is the terminator. -/
def char_at (s : List Nat) (i : Nat) : Nat := s.getD i 0

/-- The expression `(16 * table[(uchar)color[i]] + table[(uchar)color[i + 1]]) / 255.0`. -/
def channel (color : List Nat) (i : Nat) : double :=
  double_div (double_of_int (16 * table_at (char_at color i) + table_at (char_at color (i + 1))))
    (double_of_int 255)

/-- Lines 236-268. -/
def itermcolor_item_from_string (string : List Nat) : Outcome itermcolor_item :=
  let key_len := strcspn string (cstr ":")
  match strchr (string.drop key_len) 35 with
  | none =>
    .exit (.MissingColor (cstr "Error: " ++ printf_width_s (cast_int key_len) string
      ++ cstr " missing hex color definition\n"))
  | some color =>
    if strlen color ≠ 7 then
      .exit (.WrongLength (cstr "Error: Hex color \x27" ++ color
        ++ cstr "\x27 not supported, \x27#RRGGBB\x27 required\n"))
    else if (List.range 6).any (fun i => table_at (char_at color (i + 1)) = 255) then
      .exit (.InvalidDigit (cstr "Error: Invalid hex color \x27" ++ color ++ cstr "\x27\n"))
    else
      let key := string.take key_len
      let r := channel color 1
      let g := channel color 3
      let b := channel color 5
      .ok { key := key, dict := { r := r, g := g, b := b } }

/-! ## Minimal XML writer -/

inductive xml_content_type where
  | XCT_STRING
  | XCT_XML_NODE_LIST
deriving DecidableEq, Repr

/-- What the pointer `content` of a node points to: nothing, a string, or an array
of child nodes, given as the list of the pointers stored in it so far. -/
inductive xml_content (α : Type) where
  | NULL
  | string (s : List Nat)
  | node_list (xs : List α)
deriving Repr

structure xml_node where
  tag : List Nat
  attributes : Option (List Nat)
  type : xml_content_type
  content : xml_content xml_node
  count : Nat
  capacity : Nat

/-- The children stored in the array `content`; a node without an array has none. -/
def xml_node.children (self : xml_node) : List xml_node :=
  match self.content with
  | .node_list xs => xs
  | _ => []

/-- The string `content` points to, if it points to one. -/
def xml_node.text (self : xml_node) : Option (List Nat) :=
  match self.content with
  | .string s => some s
  | _ => none

/-- The constant `XML_NODE_CONTENT_INIT_CAPACITY`. -/
def XML_NODE_CONTENT_INIT_CAPACITY : Nat := 16

/-- Lines 57-82. -/
def xml_node_create (tag : List Nat) (attributes : Option (List Nat))
    (type : xml_content_type) : xml_node :=
  { tag := tag, attributes := attributes, type := type, content := .NULL, count := 0,
    capacity := 0 }

/-- Lines 106-118. -/
def xml_node_set_string_content (self : xml_node) (content : List Nat) : Outcome xml_node :=
  if self.type ≠ .XCT_STRING then
    .exit (.NotString (cstr
      "Error: calling \x60xml_node_set_string_content()\x60 with a XML node whose \x60content\x60 is not XCT_STRING\n"))
  else
    .ok { self with content := .string content }

/-- The loop `while (need > capacity) capacity *= 2;` of lines 133-134, run for at most
`fuel` rounds. -/
def grow_capacity (need : Nat) : Nat → Nat → Nat
  | 0, capacity => capacity
  | fuel + 1, capacity =>
    if need > capacity then grow_capacity need fuel (capacity * 2) else capacity

/-- Lines 120-141; `count` is the length of `content`.  When the array is not
reallocated and `count` is zero, `memcpy` copies nothing and `content` stays as it is. -/
def xml_node_append_xml_node_content (self : xml_node) (content : List xml_node) :
    Outcome xml_node :=
  let count := content.length
  if self.type ≠ .XCT_XML_NODE_LIST then
    .exit (.NotNodeList (cstr
      "Error: calling \x60xml_node_append()\x60 with a XML node whose \x60content\x60 is not XCT_XML_NODE_LIST\n"))
  else if self.count + count > self.capacity then
    let capacity := if self.capacity = 0 then XML_NODE_CONTENT_INIT_CAPACITY else self.capacity
    let capacity := grow_capacity (self.count + count) (self.count + count) capacity
    .ok { self with
      content := .node_list (self.children ++ content)
      count := self.count + count
      capacity := capacity }
  else
    match content with
    | [] => .ok { self with count := self.count + count }
    | _ :: _ =>
      .ok { self with
        content := .node_list (self.children ++ content)
        count := self.count + count }

/-- The decimal digits of `n`, exactly `k` of them, the most significant first. -/
def digits : Nat → Nat → List Nat
  | 0, _ => []
  | k + 1, n => digits k (n / 10) ++ [48 + n % 10]

/-- The text `sprintf(buf, "%.17f", x)` writes: the exact value of `x` rounded to
17 digits after the decimal point (ties to even). -/
def sprintf_17f (x : double) : List Nat :=
  let n := round_half_even (x.mant * 10 ^ 17) (2 ^ x.exp)
  (Nat.toDigits 10 (n / 10 ^ 17)).map Char.toNat ++ cstr "." ++ digits 17 (n % 10 ^ 17)

/-- Lines 187-229. -/
def xml_node_append_color_dict_srgb (node : xml_node) (item : color_dict_srgb) :
    Outcome xml_node := do
  let red := sprintf_17f item.r
  let green := sprintf_17f item.g
  let blue := sprintf_17f item.b
  -- Red Component
  let rc_k ← xml_node_set_string_content (xml_node_create (cstr "key") none .XCT_STRING)
    (cstr "Red Component")
  let rc_v ← xml_node_set_string_content (xml_node_create (cstr "real") none .XCT_STRING) red
  -- Green Component
  let gc_k ← xml_node_set_string_content (xml_node_create (cstr "key") none .XCT_STRING)
    (cstr "Green Component")
  let gc_v ← xml_node_set_string_content (xml_node_create (cstr "real") none .XCT_STRING) green
  -- Blue Component
  let bc_k ← xml_node_set_string_content (xml_node_create (cstr "key") none .XCT_STRING)
    (cstr "Blue Component")
  let bc_v ← xml_node_set_string_content (xml_node_create (cstr "real") none .XCT_STRING) blue
  -- Alpha Component
  let ac_k ← xml_node_set_string_content (xml_node_create (cstr "key") none .XCT_STRING)
    (cstr "Alpha Component")
  let ac_v ← xml_node_set_string_content (xml_node_create (cstr "integer") none .XCT_STRING)
    (cstr "1")
  -- Color Space
  let cs_k ← xml_node_set_string_content (xml_node_create (cstr "key") none .XCT_STRING)
    (cstr "Color Space")
  let cs_v ← xml_node_set_string_content (xml_node_create (cstr "string") none .XCT_STRING)
    (cstr "sRGB")
  xml_node_append_xml_node_content node [rc_k, rc_v, gc_k, gc_v, bc_k, bc_v, ac_k, ac_v, cs_k, cs_v]

/-- Lines 270-280. -/
def xml_node_append_itermcolor_item (node : xml_node) (item : itermcolor_item) :
    Outcome xml_node := do
  let key ← xml_node_set_string_content (xml_node_create (cstr "key") none .XCT_STRING) item.key
  let dict ← xml_node_append_color_dict_srgb
    (xml_node_create (cstr "dict") none .XCT_XML_NODE_LIST) item.dict
  xml_node_append_xml_node_content node [key, dict]

/-- The expression `n / 255.0` for an `int` `n`. -/
def byte_channel (n : Nat) : double := double_div (double_of_int n) (double_of_int 255)

/-- Successive calls `xml_node_append_itermcolor_item(node, item)` on one node, for the
items of a list in order, as the loop of `gi_build` makes them (lines 338-339). -/
def append_all (node : xml_node) : List itermcolor_item → Outcome xml_node
  | [] => .ok node
  | item :: items =>
    match xml_node_append_itermcolor_item node item with
    | .exit f => .exit f
    | .ok node => append_all node items

/-- A string-content node without attributes, as `xml_node_create` and
`xml_node_set_string_content` leave it. -/
def string_node (tag text : List Nat) : xml_node :=
  { tag := tag, attributes := none, type := .XCT_STRING, content := .string text, count := 0,
    capacity := 0 }

/-- The `dict` node of a color: ten string-content children in a first array of 16. -/
def color_dict_node (item : color_dict_srgb) : xml_node :=
  { tag := cstr "dict", attributes := none, type := .XCT_XML_NODE_LIST,
    content := .node_list [
      string_node (cstr "key") (cstr "Red Component"),
      string_node (cstr "real") (sprintf_17f item.r),
      string_node (cstr "key") (cstr "Green Component"),
      string_node (cstr "real") (sprintf_17f item.g),
      string_node (cstr "key") (cstr "Blue Component"),
      string_node (cstr "real") (sprintf_17f item.b),
      string_node (cstr "key") (cstr "Alpha Component"),
      string_node (cstr "integer") (cstr "1"),
      string_node (cstr "key") (cstr "Color Space"),
      string_node (cstr "string") (cstr "sRGB")],
    count := 10, capacity := 16 }

/-- The children that the items of a list give, in order: for each item its `key` node and
then its `dict` node. -/
def item_nodes : List itermcolor_item → List xml_node
  | [] => []
  | item :: items =>
    string_node (cstr "key") item.key :: color_dict_node item.dict :: item_nodes items

/-! ## Notions of the specification -/

/-- The characters `0-9`, `A-F`, `a-f`. -/
def IsHexDigit (c : Nat) : Prop :=
  (48 ≤ c ∧ c ≤ 57) ∨ (65 ≤ c ∧ c ≤ 70) ∨ (97 ≤ c ∧ c ≤ 102)

instance : DecidablePred IsHexDigit := fun c => by
  unfold IsHexDigit
  infer_instance

/-- The usual value of a hexadecimal digit: `0-9` are 0..9, `A-F` and `a-f` are 10..15. -/
def hex_value (c : Nat) : Nat :=
  if 48 ≤ c ∧ c ≤ 57 then c - 48
  else if 65 ≤ c ∧ c ≤ 70 then c - 55
  else c - 87

/-- The text of the `MissingColor` message that names `text`. -/
def missing_color_message (text : List Nat) : List Nat :=
  cstr "Error: " ++ text ++ cstr " missing hex color definition\n"

/-- The text of the `WrongLength` message that names `token`. -/
def wrong_length_message (token : List Nat) : List Nat :=
  cstr "Error: Hex color \x27" ++ token ++ cstr "\x27 not supported, \x27#RRGGBB\x27 required\n"

/-! ## The serializer -/

/-- The macro `pad_fprintf(level, stream, fmt, ...)` up to its second `fprintf`: the
conversion `%*s` of the empty string with the width `2 * level`. -/
def pad (level : Nat) : List Nat := printf_width_s ((2 * level : Nat) : Int) []

/-- The text ` %s` written for the attributes when they are not the null pointer. -/
def attributes_text : Option (List Nat) → List Nat
  | none => []
  | some attributes => cstr " " ++ attributes

mutual
/-- Lines 151-175: the text written to `stream`.  The `default` branch of the `switch` is
not reached, `type` being one of the two enumerators. -/
def xml_fprintln (level : Nat) : xml_node → List Nat
  | ⟨tag, attributes, type, content, count, _⟩ =>
    pad level ++ cstr "<" ++ tag ++ attributes_text attributes ++ cstr ">" ++
    match type with
    | .XCT_STRING =>
      (match content with
       | .string s => s
       | _ => []) ++ cstr "</" ++ tag ++ cstr ">\n"
    | .XCT_XML_NODE_LIST =>
      cstr "\n" ++
      (match content with
       | .node_list xs => xml_fprintln_loop (level + 1) count xs
       | _ => []) ++
      pad level ++ cstr "</" ++ tag ++ cstr ">\n"
/-- The loop of lines 164-167 over the first `count` children. -/
def xml_fprintln_loop (level : Nat) : Nat → List xml_node → List Nat
  | _, [] => []
  | 0, _ :: _ => []
  | count + 1, x :: xs => xml_fprintln level x ++ xml_fprintln_loop level count xs
end

/-! ## Commands -/

/-- The bytes `fgets` stores when it may still read `n` bytes, and the rest of the stream:
reading stops after a newline, at the end of the stream, or when `n` bytes are read. -/
def fgets_read : Nat → List Nat → List Nat × List Nat
  | 0, stream => ([], stream)
  | _ + 1, [] => ([], [])
  | n + 1, c :: cs =>
    if c = 10 then ([c], cs) else (c :: (fgets_read n cs).1, (fgets_read n cs).2)

/-- `fgets(line, size, stream)`: `none` for the null pointer, returned at the end of the
stream; otherwise the bytes stored before the terminator, and the rest of the stream. -/
def fgets (size : Nat) (stream : List Nat) : Option (List Nat × List Nat) :=
  match stream with
  | [] => none
  | _ :: _ => some (fgets_read (size - 1) stream)

/-- The C string that starts at the first byte of a buffer holding `buf` and a terminator. -/
def c_string (buf : List Nat) : List Nat := buf.takeWhile (fun c => c ≠ 0)

/-- The loop `while (fgetc(istream) != '\n') continue;` of lines 335-336: the rest of the
stream after its first newline.  Without a newline `fgetc` returns `EOF` for ever and the
loop never ends: `none`. -/
def fgetc_until_newline : List Nat → Option (List Nat)
  | [] => none
  | c :: cs => if c = 10 then some cs else fgetc_until_newline cs

/-- The conversion `%zu`. -/
def printf_zu (n : Nat) : List Nat := (Nat.toDigits 10 n).map Char.toNat

/-- The constant `line_max_col` of line 323. -/
def line_max_col : Nat := 80

/-- The text of the warning of lines 331-334. -/
def too_long_warning (line_count : Nat) : List Nat :=
  cstr "Warning: Line " ++ printf_zu line_count
    ++ cstr " too long, ignoring the characters after column " ++ printf_zu line_max_col

/-- The variables of the loop of `gi_build`, with what is left of `istream` and what was
written to `stderr`. -/
structure loop_state where
  istream : List Nat
  line_count : Nat
  dict : xml_node
  stderr : List Nat

/-- What one round of the loop of `gi_build` leads to. -/
inductive loop_step where
  /-- The call of `fgets` returns the null pointer and the loop ends. -/
  | eof
  /-- The program calls `exit(1)`. -/
  | exits (f : Failure) (stderr : List Nat)
  /-- The inner loop of lines 335-336 never ends. -/
  | hangs (stderr : List Nat)
  /-- The loop goes on. -/
  | next (s : loop_state)

/-- One round of the loop of lines 325-340. -/
def gi_build_iteration (s : loop_state) : loop_step :=
  match fgets (line_max_col + 1) s.istream with
  | none => .eof
  | some (buf, istream) =>
    let line := c_string buf
    let line_count := s.line_count + 1
    let read : Option (List Nat × List Nat × List Nat) :=
      match strchr line 10 with
      | some line_end => some (line.take (strlen line - strlen line_end), istream, s.stderr)
      | none =>
        match fgetc_until_newline istream with
        | none => none
        | some istream => some (line, istream, s.stderr ++ too_long_warning line_count)
    match read with
    | none => .hangs (s.stderr ++ too_long_warning line_count)
    | some (line, istream, stderr) =>
      match itermcolor_item_from_string line with
      | .exit f => .exits f stderr
      | .ok item =>
        match xml_node_append_itermcolor_item s.dict item with
        | .exit f => .exits f stderr
        | .ok dict =>
          .next { istream := istream, line_count := line_count, dict := dict, stderr := stderr }

/-- How the loop of `gi_build` ends. -/
inductive loop_end where
  | eof (dict : xml_node) (stderr : List Nat)
  | exits (f : Failure) (stderr : List Nat)
  | hangs (stderr : List Nat)

/-- The loop of lines 325-340, run for at most `fuel` rounds; `none` when they do not
suffice. -/
def gi_build_loop : Nat → loop_state → Option loop_end
  | 0, _ => none
  | fuel + 1, s =>
    match gi_build_iteration s with
    | .eof => some (.eof s.dict s.stderr)
    | .exits f stderr => some (.exits f stderr)
    | .hangs stderr => some (.hangs stderr)
    | .next s => gi_build_loop fuel s

/-- How a run of `gi_build` ends. -/
inductive Ending where
  /-- The function returns. -/
  | returns
  /-- The program calls `exit(1)`. -/
  | exits (f : Failure)
  /-- The function never returns. -/
  | hangs
deriving DecidableEq, Repr

/-- A run of `gi_build`: how it ends, and what it has written to `stderr` (the message of
an `exit` apart) and to `ostream`. -/
structure Run where
  ending : Ending
  stderr : List Nat
  ostream : List Nat
deriving DecidableEq, Repr

/-- The string `xml_header` of line 314. -/
def xml_header : List Nat := cstr "<?xml version=\x221.0\x22 encoding=\x22UTF-8\x22?>"

/-- The string `doctype_header` of lines 315-316. -/
def doctype_header : List Nat := cstr
  "<!DOCTYPE plist PUBLIC \x22-//Apple//DTD PLIST 1.0//EN\x22 \x22http://www.apple.com/DTDs/PropertyList-1.0.dtd\x22>"

/-- Lines 312-350, on the bytes of `istream`.  Every round of the loop reads a byte at
least, so the loop has one round more than the stream has bytes at most. -/
def gi_build (istream : List Nat) : Option Run :=
  let plist := xml_node_create (cstr "plist") (some (cstr "version=\x221.0\x22")) .XCT_XML_NODE_LIST
  let dict := xml_node_create (cstr "dict") none .XCT_XML_NODE_LIST
  match gi_build_loop (istream.length + 1)
      { istream := istream, line_count := 0, dict := dict, stderr := [] } with
  | none => none
  | some (.exits f stderr) => some { ending := .exits f, stderr := stderr, ostream := [] }
  | some (.hangs stderr) => some { ending := .hangs, stderr := stderr, ostream := [] }
  | some (.eof dict stderr) =>
    match xml_node_append_xml_node_content plist [dict] with
    | .exit f => some { ending := .exits f, stderr := stderr, ostream := [] }
    | .ok plist =>
      some { ending := .returns, stderr := stderr,
             ostream := xml_header ++ cstr "\n" ++ doctype_header ++ cstr "\n"
               ++ xml_fprintln 0 plist }

/-! ## Notions of the specification: the rendered lines -/

mutual
/-- A tree the serializer can render line by line: a string-content node holds a string, a
list-content node holds no array and no child, or an array with `count` children that are
such trees; no tag, attribute string or text contains a newline. -/
def well_formed : xml_node → Prop
  | ⟨tag, attributes, type, content, count, _⟩ =>
    10 ∉ tag ∧ (∀ a, attributes = some a → 10 ∉ a) ∧
    match type, content with
    | .XCT_STRING, .string s => 10 ∉ s
    | .XCT_XML_NODE_LIST, .NULL => count = 0
    | .XCT_XML_NODE_LIST, .node_list xs => count = xs.length ∧ well_formed_list xs
    | _, _ => False
/-- All nodes of a list are well formed. -/
def well_formed_list : List xml_node → Prop
  | [] => True
  | x :: xs => well_formed x ∧ well_formed_list xs
end

mutual
/-- The lines of the rendering of a node at a depth, each with the depth of the node it
belongs to and its text after the indentation and before the newline: a string-content
node gives one line `<tag attrs>text</tag>`; a list-content node gives the line
`<tag attrs>`, the lines of its children one level deeper, and the line `</tag>`. -/
def node_lines (depth : Nat) : xml_node → List (Nat × List Nat)
  | ⟨tag, attributes, type, content, _, _⟩ =>
    match type with
    | .XCT_STRING =>
      [(depth, cstr "<" ++ tag ++ attributes_text attributes ++ cstr ">" ++
        (match content with
         | .string s => s
         | _ => []) ++ cstr "</" ++ tag ++ cstr ">")]
    | .XCT_XML_NODE_LIST =>
      (depth, cstr "<" ++ tag ++ attributes_text attributes ++ cstr ">") ::
      ((match content with
        | .node_list xs => node_lines_list (depth + 1) xs
        | _ => []) ++ [(depth, cstr "</" ++ tag ++ cstr ">")])
/-- The lines of the renderings of the nodes of a list, in order. -/
def node_lines_list (depth : Nat) : List xml_node → List (Nat × List Nat)
  | [] => []
  | x :: xs => node_lines depth x ++ node_lines_list depth xs
end

/-- A line as it is written: two blanks for each level of depth, the text, a newline. -/
def render_line (line : Nat × List Nat) : List Nat :=
  List.replicate (2 * line.1) 32 ++ line.2 ++ [10]

/-- The concatenation of the written lines. -/
def render_lines : List (Nat × List Nat) → List Nat
  | [] => []
  | line :: lines => render_line line ++ render_lines lines

/-- The concatenation of the written lines, each with two more blanks in front. -/
def render_lines_indented : List (Nat × List Nat) → List Nat
  | [] => []
  | line :: lines => [32, 32] ++ render_line line ++ render_lines_indented lines

/-! ## Notions of the specification: input lines, letter case, decimal texts -/

/-- The input text made of the given lines, each followed by a newline. -/
def input_of_lines : List (List Nat) → List Nat
  | [] => []
  | line :: lines => line ++ 10 :: input_of_lines lines

/-- The same letter in the other case; other characters are left as they are. -/
def swap_case (c : Nat) : Nat :=
  if 65 ≤ c ∧ c ≤ 90 then c + 32
  else if 97 ≤ c ∧ c ≤ 122 then c - 32
  else c

/-- The text in which the characters at the positions marked `true` are replaced by the
same letter in the other case. -/
def swap_cases : List Bool → List Nat → List Nat
  | b :: bs, c :: cs => (if b then swap_case c else c) :: swap_cases bs cs
  | _, cs => cs

/-- The kind of a failure: the failure without its message. -/
def Failure.kind : Failure → Failure
  | .MissingColor _ => .MissingColor []
  | .WrongLength _ => .WrongLength []
  | .InvalidDigit _ => .InvalidDigit []
  | .NotString _ => .NotString []
  | .NotNodeList _ => .NotNodeList []

/-- An outcome up to the message of the failure: the record, or the kind of the failure. -/
def Outcome.kind {α : Type} : Outcome α → Outcome α
  | .exit f => .exit f.kind
  | .ok a => .ok a

/-- The three failures of the parser on the input of the user. -/
def Failure.is_user_input : Failure → Prop
  | .MissingColor _ => True
  | .WrongLength _ => True
  | .InvalidDigit _ => True
  | _ => False

/-- The decimal rendering of the quotient `n / 255` with exactly 17 digits after the
decimal point, rounded to the nearest. -/
def exact_17f (n : Nat) : List Nat :=
  (Nat.toDigits 10 (round_half_even (n * 10 ^ 17) 255 / 10 ^ 17)).map Char.toNat ++ cstr "."
    ++ digits 17 (round_half_even (n * 10 ^ 17) 255 % 10 ^ 17)

/-- The number that the decimal digits of a text write, its decimal point left out. -/
def digits_value : List Nat → Nat → Nat
  | [], acc => acc
  | c :: cs, acc => if c = 46 then digits_value cs acc else digits_value cs (10 * acc + (c - 48))

/-- The variables of the loop of `gi_build` before its first round. -/
def initial_state (istream : List Nat) : loop_state :=
  { istream := istream, line_count := 0,
    dict := xml_node_create (cstr "dict") none .XCT_XML_NODE_LIST, stderr := [] }

/-- The node `plist` with the node `dict` as its only child, as line 342 leaves it. -/
def plist_node (dict : xml_node) : xml_node :=
  { tag := cstr "plist", attributes := some (cstr "version=\x221.0\x22"),
    type := .XCT_XML_NODE_LIST, content := .node_list [dict], count := 1, capacity := 16 }

/-- The run of `gi_build` that the end of its loop leads to. -/
def run_of_loop_end : loop_end → Run
  | .exits f stderr => { ending := .exits f, stderr := stderr, ostream := [] }
  | .hangs stderr => { ending := .hangs, stderr := stderr, ostream := [] }
  | .eof dict stderr =>
    { ending := .returns, stderr := stderr,
      ostream := xml_header ++ cstr "\n" ++ doctype_header ++ cstr "\n"
        ++ xml_fprintln 0 (plist_node dict) }

/-! ## Lemmas on C strings -/

theorem cstr_colon : cstr ":" = [58] := rfl

theorem strcspn_colon (s : List Nat) :
    strcspn s (cstr ":") = (s.takeWhile (fun c => c ≠ 58)).length := by
  induction s with
  | nil => rfl
  | cons c cs ih =>
    by_cases h : c = 58
    · simp [strcspn, cstr_colon, h]
    · simp [strcspn, cstr_colon, h, List.takeWhile_cons]
      simpa [cstr_colon] using ih

theorem take_strcspn_colon (s : List Nat) :
    s.take (strcspn s (cstr ":")) = s.takeWhile (fun c => c ≠ 58) := by
  induction s with
  | nil => rfl
  | cons c cs ih =>
    by_cases h : c = 58
    · simp [strcspn, cstr_colon, h]
    · simp [strcspn, cstr_colon, h, List.takeWhile_cons]
      simpa [cstr_colon] using ih

theorem drop_strcspn_colon (s : List Nat) :
    s.drop (strcspn s (cstr ":")) = s.dropWhile (fun c => c ≠ 58) := by
  induction s with
  | nil => rfl
  | cons c cs ih =>
    by_cases h : c = 58
    · simp [strcspn, cstr_colon, h]
    · simp [strcspn, cstr_colon, h, List.dropWhile_cons]
      simpa [cstr_colon] using ih

theorem takeWhile_label (label rest : List Nat) (hl : 58 ∉ label) :
    (label ++ 58 :: rest).takeWhile (fun c => c ≠ 58) = label := by
  induction label with
  | nil => simp
  | cons c cs ih =>
    have hc : c ≠ 58 := fun h => hl (by simp [h])
    have hcs : 58 ∉ cs := fun h => hl (by simp [h])
    have := ih hcs
    simp only [List.cons_append, List.takeWhile_cons, hc, ne_eq, not_false_eq_true,
      decide_True, if_true, this]

theorem dropWhile_label (label rest : List Nat) (hl : 58 ∉ label) :
    (label ++ 58 :: rest).dropWhile (fun c => c ≠ 58) = 58 :: rest := by
  induction label with
  | nil => simp
  | cons c cs ih =>
    have hc : c ≠ 58 := fun h => hl (by simp [h])
    have hcs : 58 ∉ cs := fun h => hl (by simp [h])
    have := ih hcs
    simp only [List.cons_append, List.dropWhile_cons, hc, ne_eq, not_false_eq_true,
      decide_True, if_true, this]

theorem takeWhile_no_colon (s : List Nat) (h : 58 ∉ s) :
    s.takeWhile (fun c => c ≠ 58) = s := by
  induction s with
  | nil => rfl
  | cons c cs ih =>
    have hc : c ≠ 58 := fun e => h (by simp [e])
    have hcs : 58 ∉ cs := fun e => h (by simp [e])
    have := ih hcs
    simp only [List.takeWhile_cons, hc, ne_eq, not_false_eq_true, decide_True, if_true, this]

theorem dropWhile_no_colon (s : List Nat) (h : 58 ∉ s) :
    s.dropWhile (fun c => c ≠ 58) = [] := by
  induction s with
  | nil => rfl
  | cons c cs ih =>
    have hc : c ≠ 58 := fun e => h (by simp [e])
    have hcs : 58 ∉ cs := fun e => h (by simp [e])
    have := ih hcs
    simp only [List.dropWhile_cons, hc, ne_eq, not_false_eq_true, decide_True, if_true, this]

theorem strchr_eq_none (s : List Nat) (c : Nat) (hc : c ≠ 0) :
    strchr s c = none ↔ c ∉ s := by
  induction s with
  | nil => simp [strchr, hc]
  | cons x xs ih =>
    by_cases h : x = c
    · simp [strchr, h]
    · have h2 : ¬ c = x := fun e => h e.symm
      simp [strchr, h, h2, ih]

theorem strchr_first (mid tail : List Nat) (c : Nat) (hm : c ∉ mid) :
    strchr (mid ++ c :: tail) c = some (c :: tail) := by
  induction mid with
  | nil => simp [strchr]
  | cons x xs ih =>
    have hx : x ≠ c := fun e => hm (by simp [e])
    have hxs : c ∉ xs := fun e => hm (by simp [e])
    simp [strchr, hx, ih hxs]

theorem strchr_eq_some (s t : List Nat) (c : Nat) (hc : c ≠ 0) (h : strchr s c = some t) :
    ∃ mid tail, s = mid ++ c :: tail ∧ c ∉ mid ∧ t = c :: tail := by
  induction s with
  | nil => simp [strchr, hc] at h
  | cons x xs ih =>
    by_cases hx : x = c
    · refine ⟨[], xs, by simp [hx], by simp, ?_⟩
      simp [strchr, hx] at h
      simpa [hx] using h.symm
    · simp only [strchr, hx, if_false] at h
      obtain ⟨mid, tail, h1, h2, h3⟩ := ih h
      refine ⟨x :: mid, tail, by simp [h1], ?_, h3⟩
      intro hmem
      rcases List.mem_cons.mp hmem with e | e
      · exact hx e.symm
      · exact h2 e

/-- The width `(int)key_len` never exceeds the length of the line, so `%*s` adds no blank. -/
theorem printf_width_s_key_len (s : List Nat) (k : Nat) (hk : k ≤ s.length) :
    printf_width_s (cast_int k) s = s := by
  unfold printf_width_s cast_int
  have hmod : k % 2 ^ 32 ≤ k := Nat.mod_le _ _
  split_ifs with h1 h2 h2
  · have : ((k % 2 ^ 32 : Nat) : Int).toNat - s.length = 0 := by
      simp only [Int.toNat_ofNat]; omega
    simp only [this, List.replicate_zero, List.nil_append, List.append_nil]
  · have : (-((k % 2 ^ 32 : Nat) : Int)).toNat - s.length = 0 := by omega
    simp only [this, List.replicate_zero, List.nil_append, List.append_nil]
  · have : (((k % 2 ^ 32 : Nat) : Int) - 2 ^ 32).toNat - s.length = 0 := by omega
    simp only [this, List.replicate_zero, List.nil_append, List.append_nil]
  · have : (-(((k % 2 ^ 32 : Nat) : Int) - 2 ^ 32)).toNat - s.length = 0 := by
      have : k % 2 ^ 32 < 2 ^ 32 := Nat.mod_lt _ (by norm_num)
      omega
    simp only [this, List.replicate_zero, List.nil_append, List.append_nil]

theorem strcspn_le (s r : List Nat) : strcspn s r ≤ s.length := by
  induction s with
  | nil => simp [strcspn]
  | cons c cs ih =>
    simp only [strcspn]
    split_ifs
    · simp
    · simp; exact ih

/-! ## Lemmas on the parser -/

theorem from_string_missing (string : List Nat)
    (h : 35 ∉ string.dropWhile (fun c => c ≠ 58)) :
    itermcolor_item_from_string string =
      .exit (.MissingColor (missing_color_message string)) := by
  have h1 : strchr (string.drop (strcspn string (cstr ":"))) 35 = none := by
    rw [drop_strcspn_colon]
    exact (strchr_eq_none _ _ (by decide)).mpr h
  simp only [itermcolor_item_from_string, h1]
  rw [printf_width_s_key_len _ _ (strcspn_le _ _)]
  rfl

theorem from_string_token (label mid tail : List Nat) (hl : 58 ∉ label) (hm : 35 ∉ mid) :
    itermcolor_item_from_string (label ++ 58 :: (mid ++ 35 :: tail)) =
      if strlen (35 :: tail) ≠ 7 then
        .exit (.WrongLength (wrong_length_message (35 :: tail)))
      else if (List.range 6).any (fun i => table_at (char_at (35 :: tail) (i + 1)) = 255) then
        .exit (.InvalidDigit (cstr "Error: Invalid hex color \x27" ++ 35 :: tail ++ cstr "\x27\n"))
      else
        .ok { key := label,
              dict := { r := channel (35 :: tail) 1, g := channel (35 :: tail) 3,
                        b := channel (35 :: tail) 5 } } := by
  have hm2 : 35 ∉ 58 :: mid := by
    intro h
    rcases List.mem_cons.mp h with e | e
    · exact absurd e (by decide)
    · exact hm e
  have h1 : strchr ((label ++ 58 :: (mid ++ 35 :: tail)).drop
      (strcspn (label ++ 58 :: (mid ++ 35 :: tail)) (cstr ":"))) 35 = some (35 :: tail) := by
    rw [drop_strcspn_colon, dropWhile_label _ _ hl]
    exact strchr_first (58 :: mid) tail 35 hm2
  have h2 : (label ++ 58 :: (mid ++ 35 :: tail)).take
      (strcspn (label ++ 58 :: (mid ++ 35 :: tail)) (cstr ":")) = label := by
    rw [take_strcspn_colon, takeWhile_label _ _ hl]
  simp only [itermcolor_item_from_string, h1, h2]
  rfl

theorem dropWhile_colon_cases (s : List Nat) :
    s.dropWhile (fun c => c ≠ 58) = [] ∨ ∃ rest, s.dropWhile (fun c => c ≠ 58) = 58 :: rest := by
  induction s with
  | nil => left; rfl
  | cons c cs ih =>
    by_cases hc : c = 58
    · right
      exact ⟨cs, by simp [List.dropWhile_cons, hc]⟩
    · have e : (c :: cs).dropWhile (fun c => c ≠ 58) = cs.dropWhile (fun c => c ≠ 58) := by
        simp only [List.dropWhile_cons, hc, ne_eq, not_false_eq_true, decide_True, if_true]
      rw [e]
      exact ih

theorem not_mem_takeWhile_colon (s : List Nat) : 58 ∉ s.takeWhile (fun c => c ≠ 58) := by
  intro hmem
  have := List.mem_takeWhile_imp hmem
  simp at this

/-- A line either has no `#` after its label, or it splits into the label, the `:`, the
text up to the first `#` after it, and the token. -/
theorem line_cases (string : List Nat) :
    35 ∉ string.dropWhile (fun c => c ≠ 58) ∨
    ∃ label mid tail, string = label ++ 58 :: (mid ++ 35 :: tail) ∧ 58 ∉ label ∧ 35 ∉ mid := by
  by_cases h : 35 ∈ string.dropWhile (fun c => c ≠ 58)
  · right
    have hsplit := List.takeWhile_append_dropWhile (fun c => decide (c ≠ 58)) string
    rcases dropWhile_colon_cases string with e | ⟨rest, e⟩
    · rw [e] at h
      simp at h
    · rw [e] at h hsplit
      have h35 : 35 ∈ rest := by
        rcases List.mem_cons.mp h with e2 | e2
        · exact absurd e2 (by decide)
        · exact e2
      have hne : strchr rest 35 ≠ none := fun e2 => (strchr_eq_none _ _ (by decide)).mp e2 h35
      obtain ⟨t, ht⟩ := Option.ne_none_iff_exists'.mp hne
      obtain ⟨mid, tail, h1, h2, _⟩ := strchr_eq_some _ _ _ (by decide) ht
      refine ⟨string.takeWhile (fun c => c ≠ 58), mid, tail, ?_, not_mem_takeWhile_colon string, h2⟩
      rw [← h1]
      exact hsplit.symm
  · left
    exact h

theorem table_at_hex (c : Nat) (h : IsHexDigit c) :
    table_at c = hex_value c ∧ hex_value c < 16 := by
  unfold IsHexDigit at h
  rcases h with ⟨h1, h2⟩ | ⟨h1, h2⟩ | ⟨h1, h2⟩ <;> interval_cases c <;> decide

/-! ## Lemmas on the model of `double` -/

/-- The rounded quotient is an integer nearest to `a / b`. -/
theorem round_half_even_nearest (a b : Nat) (hb : 0 < b) :
    2 * a ≤ 2 * (round_half_even a b * b) + b ∧ 2 * (round_half_even a b * b) ≤ 2 * a + b := by
  have h1 : b * (a / b) + a % b = a := Nat.div_add_mod a b
  have h2 : a % b < b := Nat.mod_lt a hb
  have h3 : (a / b + 1) * b = b * (a / b) + b := by ring
  have h4 : a / b * b = b * (a / b) := by ring
  unfold round_half_even
  split_ifs <;> simp only [h3, h4] <;> omega

theorem norm_exp_reaches (a b : Nat) :
    ∀ fuel e, b * 2 ^ 52 ≤ a * 2 ^ (e + fuel) → b * 2 ^ 52 ≤ a * 2 ^ norm_exp a b fuel e := by
  intro fuel
  induction fuel with
  | zero => intro e h; simpa [norm_exp] using h
  | succ fuel ih =>
    intro e h
    simp only [norm_exp]
    split_ifs with hc
    · exact hc
    · apply ih
      have e2 : e + 1 + fuel = e + (fuel + 1) := by ring
      rw [e2]
      exact h

/-- The search for the exponent in `round_to_double` ends before its fuel does: the scaled
quotient is at least `2 ^ 52`. -/
theorem round_to_double_scaled (a b : Nat) (ha : 0 < a) :
    b * 2 ^ 52 ≤ a * 2 ^ (round_to_double a b).exp := by
  have hne : a ≠ 0 := by omega
  simp only [round_to_double, hne, if_false]
  apply norm_exp_reaches
  have h1 : b < 2 ^ b := Nat.lt_two_pow b
  have h2 : (2 : Nat) ^ (0 + (53 + b)) = 2 ^ b * 2 ^ 52 * 2 := by
    rw [show 0 + (53 + b) = b + 52 + 1 by ring, pow_succ, pow_add]
  calc b * 2 ^ 52 ≤ 2 ^ b * 2 ^ 52 := Nat.mul_le_mul_right _ h1.le
    _ ≤ 2 ^ b * 2 ^ 52 * 2 := Nat.le_mul_of_pos_right _ (by norm_num)
    _ = 1 * 2 ^ (0 + (53 + b)) := by rw [h2, one_mul]
    _ ≤ a * 2 ^ (0 + (53 + b)) := Nat.mul_le_mul_right _ ha

/-! ## Lemmas on the channel values -/

theorem channel_eq (color : List Nat) (i : Nat) :
    channel color i =
      byte_channel (16 * table_at (char_at color i) + table_at (char_at color (i + 1))) := rfl

theorem byte_channel_nat : ∀ n < 256,
    2 * (255 * (byte_channel n).mant) < 2 * (n * 2 ^ (byte_channel n).exp) + 2 ^ (byte_channel n).exp ∧
    2 * (n * 2 ^ (byte_channel n).exp) < 2 * (255 * (byte_channel n).mant) + 2 ^ (byte_channel n).exp ∧
    2 ^ 53 * (255 * (byte_channel n).mant)
      ≤ 2 ^ 53 * (n * 2 ^ (byte_channel n).exp) + 255 * 2 ^ (byte_channel n).exp ∧
    2 ^ 53 * (n * 2 ^ (byte_channel n).exp)
      ≤ 2 ^ 53 * (255 * (byte_channel n).mant) + 255 * 2 ^ (byte_channel n).exp ∧
    (double_mul (double_of_int 255) (byte_channel n)).mant
      = n * 2 ^ (double_mul (double_of_int 255) (byte_channel n)).exp := by
  decide!

theorem byte_channel_rat (n : Nat) (hn : n < 256) :
    |(byte_channel n).toRat - (n : ℚ) / 255| ≤ 1 / 2 ^ 53 ∧
    round (255 * (byte_channel n).toRat) = (n : ℤ) ∧
    (double_mul (double_of_int 255) (byte_channel n)).toRat = (n : ℚ) := by
  obtain ⟨h1, h2, h3, h4, h5⟩ := byte_channel_nat n hn
  generalize byte_channel n = d at h1 h2 h3 h4 h5 ⊢
  obtain ⟨m, e⟩ := d
  simp only [double.toRat] at *
  have hp : (0 : ℚ) < 2 ^ e := by positivity
  have hx : (m : ℚ) = (m : ℚ) / 2 ^ e * 2 ^ e := by field_simp
  have q1 : (2 : ℚ) * (255 * m) < 2 * (n * 2 ^ e) + 2 ^ e := by exact_mod_cast h1
  have q2 : (2 : ℚ) * (n * 2 ^ e) < 2 * (255 * m) + 2 ^ e := by exact_mod_cast h2
  have q3 : (2 : ℚ) ^ 53 * (255 * m) ≤ 2 ^ 53 * (n * 2 ^ e) + 255 * 2 ^ e := by exact_mod_cast h3
  have q4 : (2 : ℚ) ^ 53 * (n * 2 ^ e) ≤ 2 ^ 53 * (255 * m) + 255 * 2 ^ e := by exact_mod_cast h4
  generalize (m : ℚ) / 2 ^ e = x at hx ⊢
  rw [hx] at q1 q2 q3 q4
  have r1 : 2 * (255 * x) < 2 * n + 1 := by
    have : (2 * (255 * x)) * 2 ^ e < (2 * n + 1) * 2 ^ e := by linarith
    exact lt_of_mul_lt_mul_right this hp.le
  have r2 : 2 * (n : ℚ) < 2 * (255 * x) + 1 := by
    have : (2 * (n : ℚ)) * 2 ^ e < (2 * (255 * x) + 1) * 2 ^ e := by linarith
    exact lt_of_mul_lt_mul_right this hp.le
  have r3 : 2 ^ 53 * (255 * x) ≤ 2 ^ 53 * (n : ℚ) + 255 := by
    have : (2 ^ 53 * (255 * x)) * 2 ^ e ≤ (2 ^ 53 * (n : ℚ) + 255) * 2 ^ e := by linarith
    exact le_of_mul_le_mul_right this hp
  have r4 : 2 ^ 53 * (n : ℚ) ≤ 2 ^ 53 * (255 * x) + 255 := by
    have : (2 ^ 53 * (n : ℚ)) * 2 ^ e ≤ (2 ^ 53 * (255 * x) + 255) * 2 ^ e := by linarith
    exact le_of_mul_le_mul_right this hp
  refine ⟨?_, ?_, ?_⟩
  · rw [abs_le]
    norm_num at r3 r4 ⊢
    constructor <;> linarith
  · rw [round_eq, Int.floor_eq_iff]
    push_cast
    constructor <;> linarith
  · have hp2 : (0 : ℚ) < 2 ^ (double_mul (double_of_int 255) ⟨m, e⟩).exp := by positivity
    rw [h5]
    push_cast
    field_simp

theorem from_string_hex (label mid : List Nat) (d1 d2 d3 d4 d5 d6 : Nat)
    (hl : 58 ∉ label) (hm : 35 ∉ mid)
    (h1 : IsHexDigit d1) (h2 : IsHexDigit d2) (h3 : IsHexDigit d3)
    (h4 : IsHexDigit d4) (h5 : IsHexDigit d5) (h6 : IsHexDigit d6) :
    itermcolor_item_from_string (label ++ 58 :: (mid ++ [35, d1, d2, d3, d4, d5, d6])) =
      .ok ⟨label, ⟨byte_channel (16 * hex_value d1 + hex_value d2),
                   byte_channel (16 * hex_value d3 + hex_value d4),
                   byte_channel (16 * hex_value d5 + hex_value d6)⟩⟩ := by
  obtain ⟨t1, v1⟩ := table_at_hex d1 h1
  obtain ⟨t2, v2⟩ := table_at_hex d2 h2
  obtain ⟨t3, v3⟩ := table_at_hex d3 h3
  obtain ⟨t4, v4⟩ := table_at_hex d4 h4
  obtain ⟨t5, v5⟩ := table_at_hex d5 h5
  obtain ⟨t6, v6⟩ := table_at_hex d6 h6
  rw [from_string_token label mid [d1, d2, d3, d4, d5, d6] hl hm]
  have hlen : ¬ strlen [35, d1, d2, d3, d4, d5, d6] ≠ 7 := by simp [strlen]
  have hany : ¬ ((List.range 6).any
      (fun i => table_at (char_at [35, d1, d2, d3, d4, d5, d6] (i + 1)) = 255) = true) := by
    have e : List.range 6 = [0, 1, 2, 3, 4, 5] := by decide
    simp only [e, List.any_cons, List.any_nil, char_at, List.getD_cons_succ,
      List.getD_cons_zero, t1, t2, t3, t4, t5, t6, Bool.or_false, Bool.or_eq_true,
      decide_eq_true_eq]
    omega
  rw [if_neg hlen, if_neg hany]
  simp only [channel_eq, char_at, List.getD_cons_succ, List.getD_cons_zero,
    t1, t2, t3, t4, t5, t6]

/-! ## The color record parser -/

/-- C1 (failing input): on the line `X: #GGGGGG` a `#` is found after the label, the token
`#GGGGGG` has exactly 7 characters and `G` is outside `[0-9A-Fa-f]`, and still the parser
does not fail with `InvalidDigit` but returns a record: the table gives `G` the value 16, and
only the value 255 is rejected. -/
theorem C1_non_hex_letter_accepted :
    strchr ((cstr "X: #GGGGGG").drop (strcspn (cstr "X: #GGGGGG") (cstr ":"))) 35
      = some (cstr "#GGGGGG") ∧
    strlen (cstr "#GGGGGG") = 7 ∧
    ¬ IsHexDigit 71 ∧
    table_at 71 = 16 ∧
    itermcolor_item_from_string (cstr "X: #GGGGGG") =
      .ok ⟨cstr "X", ⟨byte_channel 272, byte_channel 272, byte_channel 272⟩⟩ := by
  decide

/-- C2: for a line whose token is `#` followed by six characters of `[0-9A-Fa-f]`, the
parser returns the record whose channels are `n / 255.0` for the bytes `n` written by the
digit pairs, with the usual hexadecimal values; and for each of the 256 bytes `n` the
channel `n / 255.0` is within `2 ^ -53` of `n / 255`, `round (255 * channel)` is `n`, also
when the product is taken in `double`, and `n` is written by two hexadecimal digits. -/
theorem C2_hex_channels (label mid : List Nat) (d1 d2 d3 d4 d5 d6 : Nat)
    (hl : 58 ∉ label) (hm : 35 ∉ mid)
    (h1 : IsHexDigit d1) (h2 : IsHexDigit d2) (h3 : IsHexDigit d3)
    (h4 : IsHexDigit d4) (h5 : IsHexDigit d5) (h6 : IsHexDigit d6) :
    itermcolor_item_from_string (label ++ 58 :: (mid ++ [35, d1, d2, d3, d4, d5, d6])) =
      .ok ⟨label, ⟨byte_channel (16 * hex_value d1 + hex_value d2),
                   byte_channel (16 * hex_value d3 + hex_value d4),
                   byte_channel (16 * hex_value d5 + hex_value d6)⟩⟩ ∧
    16 * hex_value d1 + hex_value d2 < 256 ∧
    16 * hex_value d3 + hex_value d4 < 256 ∧
    16 * hex_value d5 + hex_value d6 < 256 ∧
    ∀ n < 256,
      |(byte_channel n).toRat - (n : ℚ) / 255| ≤ 1 / 2 ^ 53 ∧
      round (255 * (byte_channel n).toRat) = (n : ℤ) ∧
      (double_mul (double_of_int 255) (byte_channel n)).toRat = (n : ℚ) ∧
      ∃ hi lo, IsHexDigit hi ∧ IsHexDigit lo ∧ 16 * hex_value hi + hex_value lo = n := by
  obtain ⟨t1, v1⟩ := table_at_hex d1 h1
  obtain ⟨t2, v2⟩ := table_at_hex d2 h2
  obtain ⟨t3, v3⟩ := table_at_hex d3 h3
  obtain ⟨t4, v4⟩ := table_at_hex d4 h4
  obtain ⟨t5, v5⟩ := table_at_hex d5 h5
  obtain ⟨t6, v6⟩ := table_at_hex d6 h6
  refine ⟨?_, by omega, by omega, by omega, ?_⟩
  · exact from_string_hex label mid d1 d2 d3 d4 d5 d6 hl hm h1 h2 h3 h4 h5 h6
  · intro n hn
    obtain ⟨a, b, c⟩ := byte_channel_rat n hn
    refine ⟨a, b, c, ?_⟩
    have key : ∀ k < 256,
        IsHexDigit (if k / 16 < 10 then 48 + k / 16 else 87 + k / 16) ∧
        IsHexDigit (if k % 16 < 10 then 48 + k % 16 else 87 + k % 16) ∧
        16 * hex_value (if k / 16 < 10 then 48 + k / 16 else 87 + k / 16)
          + hex_value (if k % 16 < 10 then 48 + k % 16 else 87 + k % 16) = k := by
      decide!
    exact ⟨_, _, key n hn⟩

/-- C2 (witness): the line `k: #0aF9c3`. -/
theorem C2_hex_channels_witness :
    (58 ∉ cstr "k" ∧ 35 ∉ cstr " " ∧ IsHexDigit 48 ∧ IsHexDigit 97 ∧ IsHexDigit 70 ∧
      IsHexDigit 57 ∧ IsHexDigit 99 ∧ IsHexDigit 51) ∧
    itermcolor_item_from_string (cstr "k" ++ 58 :: (cstr " " ++ [35, 48, 97, 70, 57, 99, 51])) =
      .ok ⟨cstr "k", ⟨byte_channel (16 * hex_value 48 + hex_value 97),
                      byte_channel (16 * hex_value 70 + hex_value 57),
                      byte_channel (16 * hex_value 99 + hex_value 51)⟩⟩ :=
  ⟨by decide,
   (C2_hex_channels (cstr "k") (cstr " ") 48 97 70 57 99 51 (by decide) (by decide)
      (by decide) (by decide) (by decide) (by decide) (by decide) (by decide)).1⟩

/-- C3 (failing input): the line `X: #zzzzzz` is accepted, and each channel of the record is
`595 / 255.0`, which is greater than 1: the numerator `16 * table[z] + table[z]` is 595. -/
theorem C3_channel_above_one :
    itermcolor_item_from_string (cstr "X: #zzzzzz") =
      .ok ⟨cstr "X", ⟨byte_channel 595, byte_channel 595, byte_channel 595⟩⟩ ∧
    16 * table_at 122 + table_at 122 = 595 ∧
    1 < (byte_channel 595).toRat := by
  refine ⟨by decide, by decide, ?_⟩
  have e : byte_channel 595 = ⟨5254199565265579, 51⟩ := by decide
  rw [e]
  norm_num [double.toRat]

/-- C4: on a line with a `#` after the label boundary, the parser fails with `WrongLength`
if and only if the token from the first such `#` to the end of the line has not exactly 7
characters, whatever the characters are; the message then names the token verbatim, and the
parser fails with `InvalidDigit` only for a token of 7 characters.  The line `X: #12345`
fails with `WrongLength` naming `#12345`. -/
theorem C4_wrong_length (label mid tail : List Nat) (hl : 58 ∉ label) (hm : 35 ∉ mid) :
    ((∃ msg, itermcolor_item_from_string (label ++ 58 :: (mid ++ 35 :: tail))
        = .exit (.WrongLength msg)) ↔ (35 :: tail).length ≠ 7) ∧
    ((35 :: tail).length ≠ 7 →
      itermcolor_item_from_string (label ++ 58 :: (mid ++ 35 :: tail))
        = .exit (.WrongLength (cstr "Error: Hex color \x27" ++ 35 :: tail
            ++ cstr "\x27 not supported, \x27#RRGGBB\x27 required\n"))) ∧
    ((∃ msg, itermcolor_item_from_string (label ++ 58 :: (mid ++ 35 :: tail))
        = .exit (.InvalidDigit msg)) → (35 :: tail).length = 7) ∧
    itermcolor_item_from_string (cstr "X: #12345")
      = .exit (.WrongLength (cstr
          "Error: Hex color \x27#12345\x27 not supported, \x27#RRGGBB\x27 required\n")) := by
  have key := from_string_token label mid tail hl hm
  by_cases hlen : (35 :: tail).length = 7
  · have hs : ¬ strlen (35 :: tail) ≠ 7 := by simpa [strlen] using hlen
    rw [if_neg hs] at key
    refine ⟨⟨?_, fun h => absurd hlen h⟩, fun h => absurd hlen h, fun _ => hlen, by decide⟩
    rintro ⟨msg, h⟩
    rw [key] at h
    split_ifs at h
    · cases h
  · have hs : strlen (35 :: tail) ≠ 7 := by simpa [strlen] using hlen
    rw [if_pos hs] at key
    refine ⟨⟨fun _ => hlen, fun _ => ⟨_, key⟩⟩, fun _ => key, ?_, by decide⟩
    rintro ⟨msg, h⟩
    rw [key] at h
    cases h

/-- C4 (witness): the line `X: #12345`. -/
theorem C4_wrong_length_witness :
    (58 ∉ cstr "X" ∧ 35 ∉ cstr " ") ∧
    ((∃ msg, itermcolor_item_from_string (cstr "X" ++ 58 :: (cstr " " ++ 35 :: cstr "12345"))
        = .exit (.WrongLength msg)) ↔ (35 :: cstr "12345").length ≠ 7) :=
  ⟨by decide, (C4_wrong_length (cstr "X") (cstr " ") (cstr "12345") (by decide) (by decide)).1⟩

/-- C5: the parser fails with `MissingColor` if and only if no `#` occurs in the part of the
line that starts at its first `:`, the label `string[0 .. key_len)` being the longest prefix
without `:`; so for a line `label:rest` the outcome is `MissingColor` exactly when `rest` has
no `#`, whatever `#` the label contains, as for `#112233: x`. -/
theorem C5_missing_color (string : List Nat) :
    ((∃ msg, itermcolor_item_from_string string = .exit (.MissingColor msg)) ↔
      35 ∉ string.dropWhile (fun c => c ≠ 58)) ∧
    string.take (strcspn string (cstr ":")) = string.takeWhile (fun c => c ≠ 58) ∧
    string.drop (strcspn string (cstr ":")) = string.dropWhile (fun c => c ≠ 58) ∧
    (∀ label rest, 58 ∉ label → string = label ++ 58 :: rest →
      ((∃ msg, itermcolor_item_from_string string = .exit (.MissingColor msg)) ↔ 35 ∉ rest)) ∧
    itermcolor_item_from_string (cstr "#112233: x") =
      .exit (.MissingColor (cstr "Error: #112233: x missing hex color definition\n")) := by
  have main : (∃ msg, itermcolor_item_from_string string = .exit (.MissingColor msg)) ↔
      35 ∉ string.dropWhile (fun c => c ≠ 58) := by
    constructor
    · rintro ⟨msg, h⟩
      rcases line_cases string with hno | ⟨label, mid, tail, hs, hl, hm⟩
      · exact hno
      · exfalso
        rw [hs, from_string_token label mid tail hl hm] at h
        split_ifs at h <;> cases h
    · intro h
      exact ⟨_, from_string_missing string h⟩
  refine ⟨main, take_strcspn_colon string, drop_strcspn_colon string, ?_, by decide⟩
  intro label rest hl hs
  rw [main, hs, dropWhile_label label rest hl]
  constructor
  · intro h hmem
    exact h (List.mem_cons_of_mem _ hmem)
  · intro h hmem
    rcases List.mem_cons.mp hmem with e | e
    · exact absurd e (by decide)
    · exact h e

/-- C6 (failing input): the line `Foo: bar` has the label `Foo` and no `#`; the message of
the `MissingColor` failure names the whole line `Foo: bar`, not the label, because the
conversion `%*s` takes `key_len` as a minimum width and not as a precision. -/
theorem C6_message_names_whole_line :
    itermcolor_item_from_string (cstr "Foo: bar") =
      .exit (.MissingColor (cstr "Error: Foo: bar missing hex color definition\n")) ∧
    (cstr "Foo: bar").take (strcspn (cstr "Foo: bar") (cstr ":")) = cstr "Foo" ∧
    cstr "Error: Foo: bar missing hex color definition\n" ≠ missing_color_message (cstr "Foo") := by
  decide

/-- C7 (counterexample): the line `Foo #112233` has no `:` and ends with `#` and six
hexadecimal digits, and the parser rejects it with `MissingColor`. -/
theorem C7_no_colon_rejected :
    58 ∉ cstr "Foo #112233" ∧
    cstr "Foo #112233" = cstr "Foo " ++ [35, 49, 49, 50, 50, 51, 51] ∧
    IsHexDigit 49 ∧ IsHexDigit 50 ∧ IsHexDigit 51 ∧
    itermcolor_item_from_string (cstr "Foo #112233") =
      .exit (.MissingColor (cstr "Error: Foo #112233 missing hex color definition\n")) ∧
    ¬ ∃ item, itermcolor_item_from_string (cstr "Foo #112233") = .ok item := by
  refine ⟨by decide, by decide, by decide, by decide, by decide, by decide, ?_⟩
  rintro ⟨item, h⟩
  have e : itermcolor_item_from_string (cstr "Foo #112233") =
      .exit (.MissingColor (cstr "Error: Foo #112233 missing hex color definition\n")) := by
    decide
  rw [e] at h
  cases h

/-- C7 (amended): every line without `:` fails with `MissingColor`, whatever else it
contains; the message names the line. -/
theorem C7_no_colon_missing_color (string : List Nat) (h : 58 ∉ string) :
    itermcolor_item_from_string string =
      .exit (.MissingColor (cstr "Error: " ++ string ++ cstr " missing hex color definition\n")) := by
  have h2 : 35 ∉ string.dropWhile (fun c => c ≠ 58) := by
    rw [dropWhile_no_colon string h]
    simp
  exact from_string_missing string h2

/-- C7 (witness): the line `Foo #112233`. -/
theorem C7_no_colon_missing_color_witness :
    58 ∉ cstr "Foo #112233" ∧
    itermcolor_item_from_string (cstr "Foo #112233") =
      .exit (.MissingColor (cstr "Error: " ++ cstr "Foo #112233"
        ++ cstr " missing hex color definition\n")) :=
  ⟨by decide, C7_no_colon_missing_color (cstr "Foo #112233") (by decide)⟩

/-- C8: the label of a record the parser returns is the part of the line before its first
`:`, unchanged: the line is the label, a `:`, and a rest, and the label has no `:`.  The
label may be empty: a line `:#RRGGBB` with six hexadecimal digits gives a record with the
empty label. -/
theorem C8_label (string : List Nat) (item : itermcolor_item)
    (h : itermcolor_item_from_string string = .ok item) :
    item.key = string.takeWhile (fun c => c ≠ 58) ∧
    58 ∉ item.key ∧
    (∃ rest, string = item.key ++ 58 :: rest) ∧
    (∀ d1 d2 d3 d4 d5 d6, IsHexDigit d1 → IsHexDigit d2 → IsHexDigit d3 → IsHexDigit d4 →
      IsHexDigit d5 → IsHexDigit d6 →
      ∃ it, itermcolor_item_from_string [58, 35, d1, d2, d3, d4, d5, d6] = .ok it ∧
        it.key = []) := by
  have last : ∀ d1 d2 d3 d4 d5 d6, IsHexDigit d1 → IsHexDigit d2 → IsHexDigit d3 →
      IsHexDigit d4 → IsHexDigit d5 → IsHexDigit d6 →
      ∃ it, itermcolor_item_from_string [58, 35, d1, d2, d3, d4, d5, d6] = .ok it ∧
        it.key = [] := by
    intro d1 d2 d3 d4 d5 d6 h1 h2 h3 h4 h5 h6
    exact ⟨_, from_string_hex [] [] d1 d2 d3 d4 d5 d6 (by simp) (by simp) h1 h2 h3 h4 h5 h6, rfl⟩
  rcases line_cases string with hno | ⟨label, mid, tail, hs, hl, hm⟩
  · rw [from_string_missing string hno] at h
    cases h
  · have hkey : item.key = label := by
      rw [hs, from_string_token label mid tail hl hm] at h
      split_ifs at h
      cases h
      rfl
    rw [hkey]
    refine ⟨?_, hl, ⟨_, hs⟩, last⟩
    rw [hs, takeWhile_label label _ hl]

/-- C8 (witness): the line ` a b :#0aF9c3`, whose label keeps its blanks. -/
theorem C8_label_witness :
    itermcolor_item_from_string (cstr " a b :#0aF9c3") =
      .ok ⟨cstr " a b ", ⟨byte_channel 10, byte_channel 249, byte_channel 195⟩⟩ ∧
    (⟨cstr " a b ", ⟨byte_channel 10, byte_channel 249, byte_channel 195⟩⟩ : itermcolor_item).key
      = (cstr " a b :#0aF9c3").takeWhile (fun c => c ≠ 58) :=
  ⟨by decide, (C8_label (cstr " a b :#0aF9c3")
    ⟨cstr " a b ", ⟨byte_channel 10, byte_channel 249, byte_channel 195⟩⟩ (by decide)).1⟩

/-! ## Lemmas on the node tree -/

theorem le_grow_capacity (need : Nat) :
    ∀ fuel capacity, need ≤ capacity * 2 ^ fuel → need ≤ grow_capacity need fuel capacity := by
  intro fuel
  induction fuel with
  | zero => intro capacity h; simpa [grow_capacity] using h
  | succ fuel ih =>
    intro capacity h
    simp only [grow_capacity]
    split_ifs with hc
    · apply ih
      calc need ≤ capacity * 2 ^ (fuel + 1) := h
        _ = capacity * 2 * 2 ^ fuel := by ring
    · omega

theorem grow_capacity_pow (need : Nat) :
    ∀ fuel capacity, ∃ j, grow_capacity need fuel capacity = capacity * 2 ^ j := by
  intro fuel
  induction fuel with
  | zero => intro capacity; exact ⟨0, by simp [grow_capacity]⟩
  | succ fuel ih =>
    intro capacity
    simp only [grow_capacity]
    split_ifs with hc
    · obtain ⟨j, hj⟩ := ih (capacity * 2)
      exact ⟨j + 1, by rw [hj]; ring⟩
    · exact ⟨0, by simp⟩

/-- The loop that doubles the capacity ends within `need` rounds, with room for `need`. -/
theorem le_grow_capacity_self (need capacity : Nat) (h : 0 < capacity) :
    need ≤ grow_capacity need need capacity := by
  apply le_grow_capacity
  have h1 : need < 2 ^ need := Nat.lt_two_pow need
  calc need ≤ 1 * 2 ^ need := by omega
    _ ≤ capacity * 2 ^ need := Nat.mul_le_mul_right _ h

theorem append_content_cons (self : xml_node) (x : xml_node) (xs : List xml_node)
    (h : self.type = .XCT_XML_NODE_LIST) :
    ∃ capacity, xml_node_append_xml_node_content self (x :: xs) =
      .ok { self with
        content := .node_list (self.children ++ x :: xs)
        count := self.count + (x :: xs).length
        capacity := capacity } ∧
      self.count + (x :: xs).length ≤ capacity ∧
      (capacity = self.capacity ∨ ∃ j, capacity = 16 * 2 ^ j ∨ capacity = self.capacity * 2 ^ j) := by
  unfold xml_node_append_xml_node_content
  simp only [h, ne_eq, not_true_eq_false, if_false]
  by_cases hg : self.count + (x :: xs).length > self.capacity
  · rw [if_pos hg]
    by_cases h0 : self.capacity = 0
    · rw [if_pos h0]
      refine ⟨_, rfl, ?_, ?_⟩
      · exact le_grow_capacity_self _ _ (by decide)
      · right
        obtain ⟨j, hj⟩ := grow_capacity_pow (self.count + (x :: xs).length)
          (self.count + (x :: xs).length) XML_NODE_CONTENT_INIT_CAPACITY
        exact ⟨j, Or.inl hj⟩
    · rw [if_neg h0]
      refine ⟨_, rfl, ?_, ?_⟩
      · exact le_grow_capacity_self _ _ (by omega)
      · right
        obtain ⟨j, hj⟩ := grow_capacity_pow (self.count + (x :: xs).length)
          (self.count + (x :: xs).length) self.capacity
        exact ⟨j, Or.inr hj⟩
  · rw [if_neg hg]
    exact ⟨self.capacity, rfl, by omega, Or.inl rfl⟩

theorem append_color_dict (item : color_dict_srgb) :
    xml_node_append_color_dict_srgb (xml_node_create (cstr "dict") none .XCT_XML_NODE_LIST) item
      = .ok (color_dict_node item) := rfl

theorem append_item_eq (node : xml_node) (item : itermcolor_item) :
    xml_node_append_itermcolor_item node item =
      xml_node_append_xml_node_content node
        [string_node (cstr "key") item.key, color_dict_node item.dict] := rfl

theorem item_nodes_length (items : List itermcolor_item) :
    (item_nodes items).length = 2 * items.length := by
  induction items with
  | nil => rfl
  | cons item items ih => simp only [item_nodes, List.length_cons, ih]; omega

theorem item_nodes_take (items : List itermcolor_item) :
    ∀ k, (item_nodes items).take (2 * k) = item_nodes (items.take k) := by
  induction items with
  | nil => intro k; simp [item_nodes]
  | cons item items ih =>
    intro k
    cases k with
    | zero => simp [item_nodes]
    | succ k =>
      have e : 2 * (k + 1) = 2 * k + 1 + 1 := by ring
      simp only [e, item_nodes, List.take_succ_cons, ih k]

theorem item_nodes_get (items : List itermcolor_item) :
    ∀ i (hi : i < items.length),
      (item_nodes items)[2 * i]? = some (string_node (cstr "key") items[i].key) ∧
      (item_nodes items)[2 * i + 1]? = some (color_dict_node items[i].dict) := by
  induction items with
  | nil => intro i hi; simp at hi
  | cons item items ih =>
    intro i hi
    cases i with
    | zero => simp [item_nodes]
    | succ i =>
      have hi2 : i < items.length := by simpa using hi
      have e : 2 * (i + 1) = 2 * i + 1 + 1 := by ring
      obtain ⟨h1, h2⟩ := ih i hi2
      simp only [e, item_nodes, List.getElem?_cons_succ, List.getElem_cons_succ]
      exact ⟨h1, h2⟩

theorem append_all_spec (items : List itermcolor_item) :
    ∀ node : xml_node, node.type = .XCT_XML_NODE_LIST →
      ∃ result, append_all node items = .ok result ∧
        result.children = node.children ++ item_nodes items ∧
        result.count = node.count + 2 * items.length ∧
        result.tag = node.tag ∧ result.attributes = node.attributes ∧
        result.type = .XCT_XML_NODE_LIST ∧
        (node.count ≤ node.capacity → result.count ≤ result.capacity) ∧
        ((node.capacity = 0 ∨ ∃ j, node.capacity = 16 * 2 ^ j) →
          (result.capacity = 0 ∨ ∃ j, result.capacity = 16 * 2 ^ j)) := by
  induction items with
  | nil =>
    intro node _
    exact ⟨node, rfl, by simp [item_nodes], by simp, rfl, rfl, by assumption, id, id⟩
  | cons item items ih =>
    intro node h
    obtain ⟨capacity, h1, h2, h3⟩ := append_content_cons node
      (string_node (cstr "key") item.key) [color_dict_node item.dict] h
    rw [← append_item_eq] at h1
    obtain ⟨result, r1, r2, r3, r4, r5, r6, r7, r8⟩ := ih _
      (show ({ node with
        content := .node_list (node.children ++
          [string_node (cstr "key") item.key, color_dict_node item.dict])
        count := node.count + [string_node (cstr "key") item.key,
          color_dict_node item.dict].length
        capacity := capacity } : xml_node).type = .XCT_XML_NODE_LIST from h)
    refine ⟨result, ?_, ?_, ?_, r4, r5, r6, ?_, ?_⟩
    · simp only [append_all, h1]
      exact r1
    · rw [r2]
      simp [xml_node.children, item_nodes]
    · rw [r3]
      simp only [List.length_cons, List.length_nil]
      omega
    · intro _
      exact r7 h2
    · intro hc
      apply r8
      rcases h3 with e | ⟨j, e | e⟩
      · rw [e]; exact hc
      · exact Or.inr ⟨j, e⟩
      · rcases hc with c0 | ⟨j0, c0⟩
        · left; rw [e, c0]; simp
        · right; exact ⟨j0 + j, by rw [e, c0]; ring⟩

/-! ## The plist assembly -/

/-- C9: on a list-content node, `xml_node_append_itermcolor_item` appends exactly two
children after those the node has: a string-content node `key` with the label as text, then
a list-content node `dict` with exactly ten string-content children, the keys `Red
Component`, `Green Component`, `Blue Component`, `Alpha Component`, `Color Space`, each
followed by its value: the three `real` nodes with the texts of the red, green and blue
channel in that order, `integer` with the text `1`, `string` with the text `sRGB`.  None of
the created nodes has attributes. -/
theorem C9_append_item (node : xml_node) (item : itermcolor_item)
    (h : node.type = .XCT_XML_NODE_LIST) :
    ∃ result, xml_node_append_itermcolor_item node item = .ok result ∧
      result.children = node.children ++ [
        ⟨cstr "key", none, .XCT_STRING, .string item.key, 0, 0⟩,
        ⟨cstr "dict", none, .XCT_XML_NODE_LIST, .node_list [
          ⟨cstr "key", none, .XCT_STRING, .string (cstr "Red Component"), 0, 0⟩,
          ⟨cstr "real", none, .XCT_STRING, .string (sprintf_17f item.dict.r), 0, 0⟩,
          ⟨cstr "key", none, .XCT_STRING, .string (cstr "Green Component"), 0, 0⟩,
          ⟨cstr "real", none, .XCT_STRING, .string (sprintf_17f item.dict.g), 0, 0⟩,
          ⟨cstr "key", none, .XCT_STRING, .string (cstr "Blue Component"), 0, 0⟩,
          ⟨cstr "real", none, .XCT_STRING, .string (sprintf_17f item.dict.b), 0, 0⟩,
          ⟨cstr "key", none, .XCT_STRING, .string (cstr "Alpha Component"), 0, 0⟩,
          ⟨cstr "integer", none, .XCT_STRING, .string (cstr "1"), 0, 0⟩,
          ⟨cstr "key", none, .XCT_STRING, .string (cstr "Color Space"), 0, 0⟩,
          ⟨cstr "string", none, .XCT_STRING, .string (cstr "sRGB"), 0, 0⟩], 10, 16⟩] ∧
      result.count = node.count + 2 ∧
      result.tag = node.tag ∧ result.attributes = node.attributes ∧
      result.type = node.type := by
  obtain ⟨capacity, h1, _, _⟩ := append_content_cons node
    (string_node (cstr "key") item.key) [color_dict_node item.dict] h
  rw [← append_item_eq] at h1
  exact ⟨_, h1, rfl, rfl, rfl, rfl, rfl⟩

/-- C9 (witness): the record `a` with the color `#FF0000` appended to a new `dict` node. -/
theorem C9_append_item_witness :
    (xml_node_create (cstr "dict") none .XCT_XML_NODE_LIST).type = .XCT_XML_NODE_LIST ∧
    ∃ result, xml_node_append_itermcolor_item
        (xml_node_create (cstr "dict") none .XCT_XML_NODE_LIST)
        ⟨cstr "a", ⟨byte_channel 255, byte_channel 0, byte_channel 0⟩⟩ = .ok result ∧
      result.count = 0 + 2 :=
  ⟨rfl,
   match C9_append_item (xml_node_create (cstr "dict") none .XCT_XML_NODE_LIST)
      ⟨cstr "a", ⟨byte_channel 255, byte_channel 0, byte_channel 0⟩⟩ rfl with
   | ⟨result, h1, _, h3, _⟩ => ⟨result, h1, h3⟩⟩

/-- C10: appending the records of a list one after another to a new list-content node
succeeds and gives a node with exactly `2 * N` children, the children `2 * i` and
`2 * i + 1` being the `key` node and the `dict` node of the `i`-th record; the node after
the first `k` records has exactly the first `2 * k` children of the final node, so no later
append changes, reorders or drops an earlier child, while the capacity grows from 16 by
doubling and always holds the children; every record gives its own pair, whether or not a
label occurs twice. -/
theorem C10_append_all (tag : List Nat) (attributes : Option (List Nat))
    (items : List itermcolor_item) :
    ∃ node, append_all (xml_node_create tag attributes .XCT_XML_NODE_LIST) items = .ok node ∧
      node.count = 2 * items.length ∧
      node.children.length = 2 * items.length ∧
      (∀ i (hi : i < items.length),
        node.children[2 * i]? = some ⟨cstr "key", none, .XCT_STRING, .string items[i].key, 0, 0⟩ ∧
        node.children[2 * i + 1]? = some (color_dict_node items[i].dict)) ∧
      (∀ k, k ≤ items.length →
        ∃ node_k, append_all (xml_node_create tag attributes .XCT_XML_NODE_LIST) (items.take k)
            = .ok node_k ∧
          node_k.children = node.children.take (2 * k)) ∧
      node.count ≤ node.capacity ∧
      (items = [] ∨ ∃ j, node.capacity = 16 * 2 ^ j) := by
  obtain ⟨node, r1, r2, r3, _, _, _, r7, r8⟩ :=
    append_all_spec items (xml_node_create tag attributes .XCT_XML_NODE_LIST) rfl
  have hch : node.children = item_nodes items := by
    rw [r2]; rfl
  have hcount : node.count = 2 * items.length := by
    rw [r3]; simp [xml_node_create]
  have hcap : node.count ≤ node.capacity := r7 (by simp [xml_node_create])
  refine ⟨node, r1, hcount, ?_, ?_, ?_, hcap, ?_⟩
  · rw [hch, item_nodes_length]
  · intro i hi
    rw [hch]
    exact item_nodes_get items i hi
  · intro k _
    obtain ⟨node_k, k1, k2, _⟩ :=
      append_all_spec (items.take k) (xml_node_create tag attributes .XCT_XML_NODE_LIST) rfl
    refine ⟨node_k, k1, ?_⟩
    rw [k2, hch, item_nodes_take]
    rfl
  · cases items with
    | nil => left; rfl
    | cons item items =>
      right
      rcases r8 (Or.inl rfl) with c0 | hj
      · rw [c0, hcount] at hcap
        simp at hcap
      · exact hj

/-! ## Lemmas on the serializer -/

theorem pad_eq (level : Nat) : pad level = List.replicate (2 * level) 32 := by
  simp only [pad, printf_width_s]
  have h : (0 : Int) ≤ ((2 * level : Nat) : Int) := Int.ofNat_nonneg _
  rw [if_pos h, Int.toNat_ofNat]
  simp

theorem xml_fprintln_string (level : Nat) (tag : List Nat) (attributes : Option (List Nat))
    (text : List Nat) (count capacity : Nat) :
    xml_fprintln level ⟨tag, attributes, .XCT_STRING, .string text, count, capacity⟩ =
      pad level ++ cstr "<" ++ tag ++ attributes_text attributes ++ cstr ">" ++ text
        ++ cstr "</" ++ tag ++ cstr ">\n" := by
  simp [xml_fprintln]

theorem xml_fprintln_list (level : Nat) (tag : List Nat) (attributes : Option (List Nat))
    (xs : List xml_node) (count capacity : Nat) :
    xml_fprintln level ⟨tag, attributes, .XCT_XML_NODE_LIST, .node_list xs, count, capacity⟩ =
      pad level ++ cstr "<" ++ tag ++ attributes_text attributes ++ cstr ">\n"
        ++ xml_fprintln_loop (level + 1) count xs
        ++ pad level ++ cstr "</" ++ tag ++ cstr ">\n" := by
  simp [xml_fprintln, cstr]

theorem xml_fprintln_null (level : Nat) (tag : List Nat) (attributes : Option (List Nat))
    (count capacity : Nat) :
    xml_fprintln level ⟨tag, attributes, .XCT_XML_NODE_LIST, .NULL, count, capacity⟩ =
      pad level ++ cstr "<" ++ tag ++ attributes_text attributes ++ cstr ">\n"
        ++ pad level ++ cstr "</" ++ tag ++ cstr ">\n" := by
  simp [xml_fprintln, cstr]

theorem xml_fprintln_loop_all (level : Nat) (xs : List xml_node) :
    xml_fprintln_loop level xs.length xs = (xs.map (xml_fprintln level)).flatten := by
  induction xs with
  | nil => simp [xml_fprintln_loop]
  | cons x xs ih => simp [xml_fprintln_loop, ih]

theorem xml_node_induction {P : xml_node → Prop} {Q : List xml_node → Prop}
    (hnode : ∀ tag attributes type content count capacity,
      (∀ xs, content = .node_list xs → Q xs) →
      P ⟨tag, attributes, type, content, count, capacity⟩)
    (hnil : Q []) (hcons : ∀ x xs, P x → Q xs → Q (x :: xs)) : ∀ node, P node :=
  fun node => xml_node.rec (motive_1 := P)
    (motive_2 := fun c => ∀ xs, c = .node_list xs → Q xs) (motive_3 := Q)
    (fun tag a t c n cap ih => hnode tag a t c n cap ih)
    (fun xs h => by cases h) (fun s xs h => by cases h)
    (fun xs ih ys h => by cases h; exact ih)
    hnil (fun x xs ih1 ih2 => hcons x xs ih1 ih2) node

theorem render_lines_append (a b : List (Nat × List Nat)) :
    render_lines (a ++ b) = render_lines a ++ render_lines b := by
  induction a with
  | nil => rfl
  | cons x xs ih => simp [render_lines, ih]

theorem render_lines_indented_eq (lines : List (Nat × List Nat)) :
    render_lines_indented lines = render_lines (lines.map (fun l => (l.1 + 1, l.2))) := by
  induction lines with
  | nil => rfl
  | cons x xs ih =>
    have e : 2 * (x.1 + 1) = 2 * x.1 + 1 + 1 := by ring
    simp [render_lines_indented, render_lines, render_line, ih, e, List.replicate_succ]

theorem xml_fprintln_lines_aux :
    ∀ node, well_formed node → ∀ d, xml_fprintln d node = render_lines (node_lines d node) := by
  refine xml_node_induction
    (P := fun node => well_formed node →
      ∀ d, xml_fprintln d node = render_lines (node_lines d node))
    (Q := fun xs => well_formed_list xs →
      ∀ d, xml_fprintln_loop d xs.length xs = render_lines (node_lines_list d xs)) ?_ ?_ ?_
  · intro tag attributes type content count capacity ih hwf d
    cases type <;> cases content <;>
      simp only [well_formed, and_false] at hwf
    · rw [xml_fprintln_string, pad_eq]
      simp [node_lines, render_lines, render_line, cstr]
    · rw [xml_fprintln_null, pad_eq]
      simp [node_lines, node_lines_list, render_lines, render_line, cstr]
    · rename_i xs
      obtain ⟨_, _, hc, hxs⟩ := hwf
      rw [xml_fprintln_list, pad_eq, hc, ih xs rfl hxs (d + 1)]
      simp [node_lines, render_lines, render_lines_append, render_line, cstr]
  · intro _ d
    rfl
  · intro x xs ihx ihxs hwf d
    simp only [well_formed_list] at hwf
    simp only [List.length_cons, xml_fprintln_loop, node_lines_list, render_lines_append,
      ihx hwf.1 d, ihxs hwf.2 d]

theorem node_lines_succ_aux :
    ∀ node, ∀ d, node_lines (d + 1) node = (node_lines d node).map (fun l => (l.1 + 1, l.2)) := by
  refine xml_node_induction
    (P := fun node => ∀ d, node_lines (d + 1) node =
      (node_lines d node).map (fun l => (l.1 + 1, l.2)))
    (Q := fun xs => ∀ d, node_lines_list (d + 1) xs =
      (node_lines_list d xs).map (fun l => (l.1 + 1, l.2))) ?_ ?_ ?_
  · intro tag attributes type content count capacity ih d
    cases type <;> cases content <;> simp [node_lines]
    rename_i xs
    exact ih xs rfl (d + 1)
  · intro d
    rfl
  · intro x xs ihx ihxs d
    simp [node_lines_list, ihx d, ihxs d]

theorem attributes_text_no_newline (attributes : Option (List Nat))
    (h : ∀ a, attributes = some a → 10 ∉ a) : 10 ∉ attributes_text attributes := by
  cases attributes with
  | none => simp [attributes_text]
  | some a =>
    have := h a rfl
    simp [attributes_text, cstr, this]

theorem well_formed_tag (tag : List Nat) (attributes : Option (List Nat))
    (type : xml_content_type) (content : xml_content xml_node) (count capacity : Nat)
    (h : well_formed ⟨tag, attributes, type, content, count, capacity⟩) :
    10 ∉ tag ∧ ∀ a, attributes = some a → 10 ∉ a := by
  cases type <;> cases content <;> simp only [well_formed, and_false] at h <;>
    exact ⟨h.1, h.2.1⟩

theorem node_lines_body_aux :
    ∀ node, well_formed node → ∀ d, ∀ l ∈ node_lines d node,
      d ≤ l.1 ∧ l.2.head? = some 60 ∧ 10 ∉ l.2 := by
  have c1 : 10 ∉ cstr "<" := by decide
  have c2 : 10 ∉ cstr ">" := by decide
  have c3 : 10 ∉ cstr "</" := by decide
  refine xml_node_induction
    (P := fun node => well_formed node → ∀ d, ∀ l ∈ node_lines d node,
      d ≤ l.1 ∧ l.2.head? = some 60 ∧ 10 ∉ l.2)
    (Q := fun xs => well_formed_list xs → ∀ d, ∀ l ∈ node_lines_list d xs,
      d ≤ l.1 ∧ l.2.head? = some 60 ∧ 10 ∉ l.2) ?_ ?_ ?_
  · intro tag attributes type content count capacity ih hwf d l hl
    have hattr : 10 ∉ attributes_text attributes := by
      exact attributes_text_no_newline _
        (well_formed_tag tag attributes type content count capacity hwf).2
    cases type <;> cases content <;>
      simp only [well_formed, and_false] at hwf
    · simp only [node_lines, List.mem_singleton] at hl
      subst hl
      obtain ⟨h1, _, h3⟩ := hwf
      refine ⟨le_refl _, by simp [cstr], ?_⟩
      simp [List.mem_append, c1, c2, c3, h1, h3, hattr]
    · simp only [node_lines, List.nil_append, List.mem_cons, List.mem_singleton,
        List.not_mem_nil, or_false] at hl
      obtain ⟨h1, _, _⟩ := hwf
      rcases hl with hl | hl <;> subst hl
      · refine ⟨le_refl _, by simp [cstr], ?_⟩
        simp [List.mem_append, c1, c2, c3, h1, hattr]
      · refine ⟨le_refl _, by simp [cstr], ?_⟩
        simp [List.mem_append, c1, c2, c3, h1, hattr]
    · rename_i xs
      obtain ⟨h1, _, _, hxs⟩ := hwf
      simp only [node_lines, List.mem_cons, List.mem_append, List.mem_singleton,
        List.not_mem_nil, or_false] at hl
      rcases hl with hl | hl | hl
      · subst hl
        refine ⟨le_refl _, by simp [cstr], ?_⟩
        simp [List.mem_append, c1, c2, c3, h1, hattr]
      · obtain ⟨a, b, c⟩ := ih xs rfl hxs (d + 1) l hl
        exact ⟨by omega, b, c⟩
      · subst hl
        refine ⟨le_refl _, by simp [cstr], ?_⟩
        simp [List.mem_append, c1, c2, c3, h1, hattr]
  · intro _ d l hl
    simp [node_lines_list] at hl
  · intro x xs ihx ihxs hwf d l hl
    simp only [well_formed_list] at hwf
    simp only [node_lines_list, List.mem_append] at hl
    rcases hl with hl | hl
    · exact ihx hwf.1 d l hl
    · exact ihxs hwf.2 d l hl

theorem node_lines_add (node : xml_node) (d : Nat) :
    node_lines d node = (node_lines 0 node).map (fun l => (d + l.1, l.2)) := by
  induction d with
  | zero => simp
  | succ d ih =>
    rw [node_lines_succ_aux node d, ih, List.map_map]
    apply List.map_congr_left
    intro l _
    simp only [Function.comp]
    congr 1
    omega

theorem node_lines_head_aux (node : xml_node) (d : Nat) :
    ∃ body rest, node_lines d node = (d, 60 :: body) :: rest := by
  obtain ⟨tag, attributes, type, content, count, capacity⟩ := node
  have e : cstr "<" = [60] := rfl
  cases type <;> cases content <;> simp only [node_lines, e] <;> exact ⟨_, _, rfl⟩

/-! ## The serializer -/

/-- C11: the text `xml_fprintln` writes.  A string-content node gives the one line of the
indentation, `<`, the tag, a blank and the attributes if there are any, `>`, the text as it
is, `</`, the tag, `>` and a newline.  A list-content node gives the line of the
indentation, `<`, the tag, the attributes, `>`, newline, then the renderings of its children
in order at the next level, then the indentation, `</`, the tag, `>`, newline.  A node
without children and attributes at level 0 gives `<tag>`, newline, `</tag>`, newline. -/
theorem C11_xml_fprintln (level : Nat) (tag : List Nat) (attributes : Option (List Nat))
    (text : List Nat) (children : List xml_node) (count capacity : Nat) :
    xml_fprintln level ⟨tag, attributes, .XCT_STRING, .string text, count, capacity⟩ =
      List.replicate (2 * level) 32 ++ cstr "<" ++ tag ++
        (match attributes with
         | none => []
         | some a => cstr " " ++ a) ++ cstr ">" ++ text ++ cstr "</" ++ tag ++ cstr ">\n" ∧
    xml_fprintln level
        ⟨tag, attributes, .XCT_XML_NODE_LIST, .node_list children, children.length, capacity⟩ =
      List.replicate (2 * level) 32 ++ cstr "<" ++ tag ++
        (match attributes with
         | none => []
         | some a => cstr " " ++ a) ++ cstr ">\n" ++
        (children.map (xml_fprintln (level + 1))).flatten ++
        List.replicate (2 * level) 32 ++ cstr "</" ++ tag ++ cstr ">\n" ∧
    xml_fprintln 0 ⟨tag, none, .XCT_XML_NODE_LIST, .node_list [], 0, capacity⟩ =
      cstr "<" ++ tag ++ cstr ">\n" ++ cstr "</" ++ tag ++ cstr ">\n" ∧
    xml_fprintln 0 (xml_node_create tag none .XCT_XML_NODE_LIST) =
      cstr "<" ++ tag ++ cstr ">\n" ++ cstr "</" ++ tag ++ cstr ">\n" ∧
    xml_fprintln 1 ⟨cstr "key", none, .XCT_STRING, .string (cstr "a<b&c>"), 0, 0⟩ =
      cstr "  <key>a<b&c></key>\n" := by
  have hatt : attributes_text attributes =
      (match attributes with
       | none => []
       | some a => cstr " " ++ a) := by
    cases attributes <;> rfl
  refine ⟨?_, ?_, ?_, ?_, by decide⟩
  · rw [xml_fprintln_string, pad_eq, hatt]
  · rw [xml_fprintln_list, pad_eq, hatt, xml_fprintln_loop_all]
  · rw [xml_fprintln_list, pad_eq]
    simp [attributes_text, xml_fprintln_loop]
  · rw [xml_node_create, xml_fprintln_null, pad_eq]
    simp [attributes_text]

/-- C12: for a tree without newline in its tags, attributes and texts, the text written at
depth `d` is the sequence of the lines of the tree; the line of a node `k` levels below the
root has the level `d + k` and is written as exactly `2 * (d + k)` blanks, then its text,
which begins with `<` and has no newline, then a newline.  So the first line written at
depth 0 begins with `<`, and the text written at depth `d + 1` is the text written at
depth `d` with two blanks before every line. -/
theorem C12_indentation (node : xml_node) (d : Nat) (h : well_formed node) :
    xml_fprintln d node = render_lines (node_lines d node) ∧
    node_lines d node = (node_lines 0 node).map (fun l => (d + l.1, l.2)) ∧
    (∀ l ∈ node_lines d node, ∃ body, l.2 = 60 :: body ∧ 10 ∉ l.2 ∧
      render_line l = List.replicate (2 * l.1) 32 ++ 60 :: body ++ [10]) ∧
    (∃ body rest, node_lines d node = (d, 60 :: body) :: rest) ∧
    (∃ rest, xml_fprintln 0 node = 60 :: rest) ∧
    xml_fprintln (d + 1) node = render_lines_indented (node_lines d node) := by
  refine ⟨xml_fprintln_lines_aux node h d, node_lines_add node d, ?_,
    node_lines_head_aux node d, ?_, ?_⟩
  · intro l hl
    obtain ⟨_, h2, h3⟩ := node_lines_body_aux node h d l hl
    cases hb : l.2 with
    | nil => rw [hb] at h2; simp at h2
    | cons c body =>
      rw [hb] at h2 h3
      simp only [List.head?_cons, Option.some.injEq] at h2
      subst h2
      exact ⟨body, rfl, h3, by simp [render_line, hb]⟩
  · obtain ⟨body, rest, e⟩ := node_lines_head_aux node 0
    rw [xml_fprintln_lines_aux node h 0, e]
    exact ⟨_, by simp [render_lines, render_line]; rfl⟩
  · rw [xml_fprintln_lines_aux node h (d + 1), node_lines_succ_aux node d,
      render_lines_indented_eq]

/-- C12 (witness): a `dict` node with one `key` child, written at depth 1. -/
theorem C12_indentation_witness :
    well_formed ⟨cstr "dict", none, .XCT_XML_NODE_LIST,
      .node_list [string_node (cstr "key") (cstr "a")], 1, 16⟩ ∧
    xml_fprintln (1 + 1) ⟨cstr "dict", none, .XCT_XML_NODE_LIST,
      .node_list [string_node (cstr "key") (cstr "a")], 1, 16⟩ =
      render_lines_indented (node_lines 1 ⟨cstr "dict", none, .XCT_XML_NODE_LIST,
        .node_list [string_node (cstr "key") (cstr "a")], 1, 16⟩) :=
  have hw : well_formed ⟨cstr "dict", none, .XCT_XML_NODE_LIST,
      .node_list [string_node (cstr "key") (cstr "a")], 1, 16⟩ := by
    simp [well_formed, well_formed_list, string_node, cstr]
  ⟨hw, (C12_indentation _ 1 hw).2.2.2.2.2⟩

/-- C16: `xml_node_set_string_content` on a node created as list-content and
`xml_node_append_xml_node_content` on a node created as string-content end the program with
their message, whatever the node holds, and no node is changed; on a node of the matching
type the first sets the text and changes nothing else, and the second returns. -/
theorem C16_variant_mutation (tag : List Nat) (attributes : Option (List Nat))
    (content : xml_content xml_node) (count capacity : Nat) (text : List Nat)
    (nodes : List xml_node) :
    xml_node_set_string_content
        ⟨tag, attributes, .XCT_XML_NODE_LIST, content, count, capacity⟩ text =
      .exit (.NotString (cstr
        "Error: calling \x60xml_node_set_string_content()\x60 with a XML node whose \x60content\x60 is not XCT_STRING\n")) ∧
    xml_node_append_xml_node_content
        ⟨tag, attributes, .XCT_STRING, content, count, capacity⟩ nodes =
      .exit (.NotNodeList (cstr
        "Error: calling \x60xml_node_append()\x60 with a XML node whose \x60content\x60 is not XCT_XML_NODE_LIST\n")) ∧
    xml_node_set_string_content ⟨tag, attributes, .XCT_STRING, content, count, capacity⟩ text =
      .ok ⟨tag, attributes, .XCT_STRING, .string text, count, capacity⟩ ∧
    ∃ result, xml_node_append_xml_node_content
        ⟨tag, attributes, .XCT_XML_NODE_LIST, content, count, capacity⟩ nodes = .ok result ∧
      result.count = count + nodes.length ∧ result.type = .XCT_XML_NODE_LIST := by
  refine ⟨rfl, rfl, rfl, ?_⟩
  cases nodes with
  | nil =>
    unfold xml_node_append_xml_node_content
    simp only [ne_eq, not_true_eq_false, if_false]
    split_ifs <;> exact ⟨_, rfl, rfl, rfl⟩
  | cons x xs =>
    obtain ⟨c, h, _⟩ := append_content_cons
      ⟨tag, attributes, .XCT_XML_NODE_LIST, content, count, capacity⟩ x xs rfl
    exact ⟨_, h, rfl, rfl⟩

/-! ## Letter case -/

theorem table_at_swap_case_byte : ∀ c < 256, table_at (swap_case c) = table_at c := by
  decide!

theorem table_at_swap_case (c : Nat) : table_at (swap_case c) = table_at c := by
  by_cases h : c < 256
  · exact table_at_swap_case_byte c h
  · have e : swap_case c = c := by
      unfold swap_case
      split_ifs <;> omega
    rw [e]

theorem swap_cases_length : ∀ (mask : List Bool) (s : List Nat),
    (swap_cases mask s).length = s.length := by
  intro mask
  induction mask with
  | nil => intro s; cases s <;> rfl
  | cons b bs ih =>
    intro s
    cases s with
    | nil => rfl
    | cons c cs => simp [swap_cases, ih cs]

theorem table_at_swap_cases : ∀ (mask : List Bool) (s : List Nat) (i : Nat),
    table_at (char_at (swap_cases mask s) i) = table_at (char_at s i) := by
  intro mask
  induction mask with
  | nil => intro s i; cases s <;> rfl
  | cons b bs ih =>
    intro s i
    cases s with
    | nil => rfl
    | cons c cs =>
      cases i with
      | zero =>
        cases b
        · rfl
        · simp only [swap_cases, char_at, List.getD_cons_zero, if_true]
          exact table_at_swap_case c
      | succ i =>
        have := ih cs i
        simpa [swap_cases, char_at] using this

/-- C20: on a line with a token, replacing letters among the characters after the `#` by the
same letter in the other case leaves the outcome of the parser as it is, up to the text of
the message: the same record, or a failure of the same kind.  The lines `k: #ff00aa` and
`k: #FF00AA` give the same record. -/
theorem C20_case_insensitive (label mid tail : List Nat) (mask : List Bool)
    (hl : 58 ∉ label) (hm : 35 ∉ mid) :
    (itermcolor_item_from_string (label ++ 58 :: (mid ++ 35 :: swap_cases mask tail))).kind =
      (itermcolor_item_from_string (label ++ 58 :: (mid ++ 35 :: tail))).kind ∧
    itermcolor_item_from_string (cstr "k: #ff00aa") =
      itermcolor_item_from_string (cstr "k: #FF00AA") ∧
    swap_cases [true, true, false, false, true, true] (cstr "ff00aa") = cstr "FF00AA" := by
  refine ⟨?_, by decide, by decide⟩
  rw [from_string_token label mid _ hl hm, from_string_token label mid _ hl hm]
  have hlen : strlen (35 :: swap_cases mask tail) = strlen (35 :: tail) := by
    simp [strlen, swap_cases_length]
  have hchar : ∀ i, table_at (char_at (35 :: swap_cases mask tail) (i + 1)) =
      table_at (char_at (35 :: tail) (i + 1)) := by
    intro i
    have := table_at_swap_cases mask tail i
    simpa [char_at] using this
  have hany : (List.range 6).any
        (fun i => table_at (char_at (35 :: swap_cases mask tail) (i + 1)) = 255) =
      (List.range 6).any (fun i => table_at (char_at (35 :: tail) (i + 1)) = 255) := by
    simp only [hchar]
  have hch : ∀ i, channel (35 :: swap_cases mask tail) (i + 1) =
      channel (35 :: tail) (i + 1) := by
    intro i
    simp only [channel, hchar]
  rw [hlen, hany, hch 0, hch 2, hch 4]
  split_ifs <;> rfl

/-- C20 (witness): the line `k: #ff00aa` with the first two letters replaced. -/
theorem C20_case_insensitive_witness :
    (58 ∉ cstr "k" ∧ 35 ∉ cstr " ") ∧
    (itermcolor_item_from_string
        (cstr "k" ++ 58 :: (cstr " " ++ 35 :: swap_cases [true, true] (cstr "ff00aa")))).kind =
      (itermcolor_item_from_string (cstr "k" ++ 58 :: (cstr " " ++ 35 :: cstr "ff00aa"))).kind :=
  ⟨by decide,
   (C20_case_insensitive (cstr "k") (cstr " ") (cstr "ff00aa") [true, true]
      (by decide) (by decide)).1⟩

/-! ## The texts of the channels -/

theorem sprintf_17f_byte_nat : ∀ n < 256,
    (sprintf_17f (byte_channel n)).length = 19 ∧
    (sprintf_17f (byte_channel n)).getD 1 0 = 46 ∧
    (∀ i < 19, i ≠ 1 → 48 ≤ (sprintf_17f (byte_channel n)).getD i 0 ∧
      (sprintf_17f (byte_channel n)).getD i 0 ≤ 57) ∧
    2 * (digits_value (sprintf_17f (byte_channel n)) 0 * 2 ^ (byte_channel n).exp)
      ≤ 2 * ((byte_channel n).mant * 10 ^ 17) + 2 ^ (byte_channel n).exp ∧
    2 * ((byte_channel n).mant * 10 ^ 17)
      ≤ 2 * (digits_value (sprintf_17f (byte_channel n)) 0 * 2 ^ (byte_channel n).exp)
        + 2 ^ (byte_channel n).exp ∧
    255 * digits_value (sprintf_17f (byte_channel n)) 0 ≤ n * 10 ^ 17 + 1490 ∧
    n * 10 ^ 17 ≤ 255 * digits_value (sprintf_17f (byte_channel n)) 0 + 1490 := by
  decide!

theorem sprintf_17f_byte_rat (n : Nat) (hn : n < 256) :
    |(digits_value (sprintf_17f (byte_channel n)) 0 : ℚ) / 10 ^ 17 - (byte_channel n).toRat|
      ≤ 1 / (2 * 10 ^ 17) ∧
    |(digits_value (sprintf_17f (byte_channel n)) 0 : ℚ) / 10 ^ 17 - (n : ℚ) / 255|
      ≤ 6 / 10 ^ 17 := by
  obtain ⟨_, _, _, h1, h2, h3, h4⟩ := sprintf_17f_byte_nat n hn
  generalize digits_value (sprintf_17f (byte_channel n)) 0 = v at h1 h2 h3 h4 ⊢
  generalize byte_channel n = d at h1 h2 ⊢
  obtain ⟨m, e⟩ := d
  simp only [double.toRat] at *
  have hp : (0 : ℚ) < 2 ^ e := by positivity
  have q1 : (2 : ℚ) * (v * 2 ^ e) ≤ 2 * (m * 10 ^ 17) + 2 ^ e := by exact_mod_cast h1
  have q2 : (2 : ℚ) * (m * 10 ^ 17) ≤ 2 * (v * 2 ^ e) + 2 ^ e := by exact_mod_cast h2
  have q3 : (255 : ℚ) * v ≤ n * 10 ^ 17 + 1490 := by exact_mod_cast h3
  have q4 : (n : ℚ) * 10 ^ 17 ≤ 255 * v + 1490 := by exact_mod_cast h4
  have hx : (m : ℚ) = (m : ℚ) / 2 ^ e * 2 ^ e := by field_simp
  generalize (m : ℚ) / 2 ^ e = x at hx ⊢
  rw [hx] at q1 q2
  have r1 : 2 * (v : ℚ) ≤ 2 * (x * 10 ^ 17) + 1 := by
    have : (2 * (v : ℚ)) * 2 ^ e ≤ (2 * (x * 10 ^ 17) + 1) * 2 ^ e := by linarith
    exact le_of_mul_le_mul_right this hp
  have r2 : 2 * (x * 10 ^ 17) ≤ 2 * (v : ℚ) + 1 := by
    have : (2 * (x * 10 ^ 17)) * 2 ^ e ≤ (2 * (v : ℚ) + 1) * 2 ^ e := by linarith
    exact le_of_mul_le_mul_right this hp
  have hv : (v : ℚ) = (v : ℚ) / 10 ^ 17 * 10 ^ 17 := by field_simp
  generalize (v : ℚ) / 10 ^ 17 = y at hv ⊢
  rw [hv] at r1 r2 q3 q4
  constructor
  · rw [abs_le]
    norm_num at r1 r2 ⊢
    constructor <;> linarith
  · rw [abs_le]
    norm_num at q3 q4 ⊢
    constructor <;> linarith

/-- C15 (counterexample): for the line `X: #800000` the `real` node of the red channel holds
the text `0.50196078431372548`, the rendering of the `double` `128 / 255.0`; the decimal
rendering of the quotient `128 / 255` with 17 digits after the point is
`0.50196078431372549`, as the quotient lies between this number and the next. -/
theorem C15_real_text_differs :
    itermcolor_item_from_string (cstr "X: #800000") =
      .ok ⟨cstr "X", ⟨byte_channel 128, byte_channel 0, byte_channel 0⟩⟩ ∧
    (color_dict_node ⟨byte_channel 128, byte_channel 0, byte_channel 0⟩).children[1]? =
      some (string_node (cstr "real") (sprintf_17f (byte_channel 128))) ∧
    sprintf_17f (byte_channel 128) = cstr "0.50196078431372548" ∧
    exact_17f 128 = cstr "0.50196078431372549" ∧
    sprintf_17f (byte_channel 128) ≠ exact_17f 128 ∧
    (50196078431372549 : ℚ) / 10 ^ 17 ≤ 128 / 255 ∧
    (128 : ℚ) / 255 < 50196078431372550 / 10 ^ 17 := by
  refine ⟨by decide, rfl, by decide, by decide, by decide, by norm_num, by norm_num⟩

/-- C15 (amended): the line `Foreground Color: #FF0000` gives the label `Foreground Color`
and the channels 1, 0 and 0, and its `dict` node is written with the lines
`<real>1.00000000000000000</real>`, `<real>0.00000000000000000</real>` twice,
`<integer>1</integer>` and `<string>sRGB</string>` after their keys.  For every line with a
token of six hexadecimal digits, the `real` nodes hold the `%.17f` texts of the `double`s
`n / 255.0` for the bytes `n` of the channels; each such text has one digit, the point and
exactly 17 digits, and the number it writes is the exact value of the `double` rounded to
17 digits after the point, within `6 / 10 ^ 17` of `n / 255`. -/
theorem C15_real_texts (label mid : List Nat) (d1 d2 d3 d4 d5 d6 : Nat)
    (hl : 58 ∉ label) (hm : 35 ∉ mid)
    (h1 : IsHexDigit d1) (h2 : IsHexDigit d2) (h3 : IsHexDigit d3)
    (h4 : IsHexDigit d4) (h5 : IsHexDigit d5) (h6 : IsHexDigit d6) :
    (∃ item dict,
      itermcolor_item_from_string (label ++ 58 :: (mid ++ [35, d1, d2, d3, d4, d5, d6]))
        = .ok item ∧
      xml_node_append_color_dict_srgb (xml_node_create (cstr "dict") none .XCT_XML_NODE_LIST)
        item.dict = .ok dict ∧
      dict.children.map (fun node => (node.tag, node.text)) = [
        (cstr "key", some (cstr "Red Component")),
        (cstr "real", some (sprintf_17f (byte_channel (16 * hex_value d1 + hex_value d2)))),
        (cstr "key", some (cstr "Green Component")),
        (cstr "real", some (sprintf_17f (byte_channel (16 * hex_value d3 + hex_value d4)))),
        (cstr "key", some (cstr "Blue Component")),
        (cstr "real", some (sprintf_17f (byte_channel (16 * hex_value d5 + hex_value d6)))),
        (cstr "key", some (cstr "Alpha Component")),
        (cstr "integer", some (cstr "1")),
        (cstr "key", some (cstr "Color Space")),
        (cstr "string", some (cstr "sRGB"))]) ∧
    16 * hex_value d1 + hex_value d2 < 256 ∧
    16 * hex_value d3 + hex_value d4 < 256 ∧
    16 * hex_value d5 + hex_value d6 < 256 ∧
    (∀ n < 256,
      (sprintf_17f (byte_channel n)).length = 19 ∧
      (sprintf_17f (byte_channel n)).getD 1 0 = 46 ∧
      (∀ i < 19, i ≠ 1 → 48 ≤ (sprintf_17f (byte_channel n)).getD i 0 ∧
        (sprintf_17f (byte_channel n)).getD i 0 ≤ 57) ∧
      |(digits_value (sprintf_17f (byte_channel n)) 0 : ℚ) / 10 ^ 17 - (byte_channel n).toRat|
        ≤ 1 / (2 * 10 ^ 17) ∧
      |(digits_value (sprintf_17f (byte_channel n)) 0 : ℚ) / 10 ^ 17 - (n : ℚ) / 255|
        ≤ 6 / 10 ^ 17) ∧
    itermcolor_item_from_string (cstr "Foreground Color: #FF0000") =
      .ok ⟨cstr "Foreground Color", ⟨byte_channel 255, byte_channel 0, byte_channel 0⟩⟩ ∧
    (byte_channel 255).toRat = 1 ∧ (byte_channel 0).toRat = 0 ∧
    xml_node_append_color_dict_srgb (xml_node_create (cstr "dict") none .XCT_XML_NODE_LIST)
      ⟨byte_channel 255, byte_channel 0, byte_channel 0⟩ =
      .ok (color_dict_node ⟨byte_channel 255, byte_channel 0, byte_channel 0⟩) ∧
    xml_fprintln 0 (color_dict_node ⟨byte_channel 255, byte_channel 0, byte_channel 0⟩) =
      cstr "<dict>\n" ++
      cstr "  <key>Red Component</key>\n  <real>1.00000000000000000</real>\n" ++
      cstr "  <key>Green Component</key>\n  <real>0.00000000000000000</real>\n" ++
      cstr "  <key>Blue Component</key>\n  <real>0.00000000000000000</real>\n" ++
      cstr "  <key>Alpha Component</key>\n  <integer>1</integer>\n" ++
      cstr "  <key>Color Space</key>\n  <string>sRGB</string>\n" ++
      cstr "</dict>\n" := by
  obtain ⟨_, v1⟩ := table_at_hex d1 h1
  obtain ⟨_, v2⟩ := table_at_hex d2 h2
  obtain ⟨_, v3⟩ := table_at_hex d3 h3
  obtain ⟨_, v4⟩ := table_at_hex d4 h4
  obtain ⟨_, v5⟩ := table_at_hex d5 h5
  obtain ⟨_, v6⟩ := table_at_hex d6 h6
  refine ⟨⟨_, _, from_string_hex label mid d1 d2 d3 d4 d5 d6 hl hm h1 h2 h3 h4 h5 h6,
    append_color_dict _, rfl⟩, by omega, by omega, by omega, ?_, by decide, ?_, ?_, rfl,
    by decide!⟩
  · intro n hn
    obtain ⟨a, b, c, _⟩ := sprintf_17f_byte_nat n hn
    obtain ⟨d, e⟩ := sprintf_17f_byte_rat n hn
    exact ⟨a, b, c, d, e⟩
  · have e : byte_channel 255 = ⟨2 ^ 52, 52⟩ := by decide
    rw [e]
    norm_num [double.toRat]
  · have e : byte_channel 0 = ⟨0, 0⟩ := by decide
    rw [e]
    norm_num [double.toRat]

/-- C15 (witness): the line `k: #0aF9c3`. -/
theorem C15_real_texts_witness :
    (58 ∉ cstr "k" ∧ 35 ∉ cstr " " ∧ IsHexDigit 48 ∧ IsHexDigit 97 ∧ IsHexDigit 70 ∧
      IsHexDigit 57 ∧ IsHexDigit 99 ∧ IsHexDigit 51) ∧
    16 * hex_value 48 + hex_value 97 < 256 :=
  ⟨by decide,
   (C15_real_texts (cstr "k") (cstr " ") 48 97 70 57 99 51 (by decide) (by decide)
      (by decide) (by decide) (by decide) (by decide) (by decide) (by decide)).2.1⟩

/-! ## Lemmas on the reading of lines -/

theorem fgets_read_line : ∀ (n : Nat) (l rest : List Nat), 10 ∉ l →
    fgets_read n (l ++ 10 :: rest) =
      if l.length < n then (l ++ [10], rest) else (l.take n, l.drop n ++ 10 :: rest) := by
  intro n
  induction n with
  | zero => intro l rest _; simp [fgets_read]
  | succ n ih =>
    intro l rest hl
    cases l with
    | nil => simp [fgets_read]
    | cons c cs =>
      have hc : c ≠ 10 := fun e => hl (by simp [e])
      have hcs : 10 ∉ cs := fun e => hl (by simp [e])
      have e := ih cs rest hcs
      show fgets_read (n + 1) (c :: (cs ++ 10 :: rest)) = _
      simp only [fgets_read, hc, if_false, List.length_cons, Nat.add_lt_add_iff_right, e]
      by_cases h : cs.length < n <;> simp [h]

theorem fgetc_until_newline_line (l rest : List Nat) (hl : 10 ∉ l) :
    fgetc_until_newline (l ++ 10 :: rest) = some rest := by
  induction l with
  | nil => simp [fgetc_until_newline]
  | cons c cs ih =>
    have hc : c ≠ 10 := fun e => hl (by simp [e])
    have hcs : 10 ∉ cs := fun e => hl (by simp [e])
    simp [fgetc_until_newline, hc, ih hcs]

theorem fgetc_until_newline_none (l : List Nat) (hl : 10 ∉ l) :
    fgetc_until_newline l = none := by
  induction l with
  | nil => rfl
  | cons c cs ih =>
    have hc : c ≠ 10 := fun e => hl (by simp [e])
    have hcs : 10 ∉ cs := fun e => hl (by simp [e])
    simp [fgetc_until_newline, hc, ih hcs]

theorem c_string_text (l : List Nat) (h0 : 0 ∉ l) : c_string l = l := by
  induction l with
  | nil => rfl
  | cons c cs ih =>
    have hc : c ≠ 0 := fun e => h0 (by simp [e])
    have hcs : 0 ∉ cs := fun e => h0 (by simp [e])
    have := ih hcs
    simp only [c_string] at this ⊢
    simp only [List.takeWhile_cons, hc, ne_eq, not_false_eq_true, decide_True, if_true, this]

theorem not_mem_take {l : List Nat} {c : Nat} (n : Nat) (h : c ∉ l) : c ∉ l.take n :=
  fun hm => h (List.mem_of_mem_take hm)

theorem not_mem_drop {l : List Nat} {c : Nat} (n : Nat) (h : c ∉ l) : c ∉ l.drop n :=
  fun hm => h (List.mem_of_mem_drop hm)

/-- One round of the loop on a stream that starts with a line and its newline: the parser
gets the first 80 characters of the line, the rest of the line and the newline are read and
dropped, and the warning is written when the line has 80 characters or more. -/
theorem gi_build_iteration_line (s : loop_state) (l rest : List Nat)
    (hs : s.istream = l ++ 10 :: rest) (hl : 10 ∉ l) (h0 : 0 ∉ l) :
    gi_build_iteration s =
      match itermcolor_item_from_string (l.take 80) with
      | .exit f =>
        .exits f (if l.length < 80 then s.stderr
          else s.stderr ++ too_long_warning (s.line_count + 1))
      | .ok item =>
        match xml_node_append_itermcolor_item s.dict item with
        | .exit f =>
          .exits f (if l.length < 80 then s.stderr
            else s.stderr ++ too_long_warning (s.line_count + 1))
        | .ok dict =>
          .next { istream := rest, line_count := s.line_count + 1, dict := dict,
                  stderr := if l.length < 80 then s.stderr
                    else s.stderr ++ too_long_warning (s.line_count + 1) } := by
  have hfgets : fgets (line_max_col + 1) s.istream = some (fgets_read 80 (l ++ 10 :: rest)) := by
    rw [hs]
    cases l <;> rfl
  unfold gi_build_iteration
  rw [hfgets, fgets_read_line 80 l rest hl]
  by_cases hlen : l.length < 80
  · have htake : l.take 80 = l := List.take_of_length_le (by omega)
    have h0' : 0 ∉ l ++ [10] := by
      intro h
      rcases List.mem_append.mp h with e | e
      · exact h0 e
      · simp at e
    have hchr : strchr (l ++ [10]) 10 = some [10] := strchr_first l [] 10 hl
    simp only [hlen, if_true, c_string_text _ h0', hchr, strlen, List.length_append,
      List.length_singleton, Nat.add_sub_cancel, List.take_left', htake]
  · have h0' : 0 ∉ l.take 80 := not_mem_take 80 h0
    have hchr : strchr (l.take 80) 10 = none :=
      (strchr_eq_none _ _ (by decide)).mpr (not_mem_take 80 hl)
    simp only [hlen, if_false, c_string_text _ h0', hchr,
      fgetc_until_newline_line _ rest (not_mem_drop 80 hl)]

/-- One round of the loop on a stream that is not empty and has no newline: the inner loop
never ends. -/
theorem gi_build_iteration_hangs (s : loop_state) (h : s.istream ≠ [])
    (hl : 10 ∉ s.istream) :
    gi_build_iteration s = .hangs (s.stderr ++ too_long_warning (s.line_count + 1)) := by
  unfold gi_build_iteration
  cases hst : s.istream with
  | nil => exact absurd hst h
  | cons c cs =>
    rw [hst] at hl
    have hc : c ≠ 10 := fun e => hl (by simp [e])
    have hcs : 10 ∉ cs := fun e => hl (by simp [e])
    have key : ∀ (n : Nat) (t : List Nat), 10 ∉ t →
        10 ∉ (fgets_read n t).1 ∧ 10 ∉ (fgets_read n t).2 := by
      intro n
      induction n with
      | zero => intro t ht; exact ⟨by simp [fgets_read], by simpa [fgets_read] using ht⟩
      | succ n ih =>
        intro t ht
        cases t with
        | nil => simp [fgets_read]
        | cons x xs =>
          have hx : x ≠ 10 := fun e => ht (by simp [e])
          have hxs : 10 ∉ xs := fun e => ht (by simp [e])
          obtain ⟨a, b⟩ := ih xs hxs
          simp only [fgets_read, hx, if_false]
          refine ⟨?_, b⟩
          intro hm
          rcases List.mem_cons.mp hm with e | e
          · exact hx e.symm
          · exact a e
    obtain ⟨k1, k2⟩ := key (line_max_col + 1 - 1) (c :: cs) hl
    have hchr : strchr (c_string (fgets_read (line_max_col + 1 - 1) (c :: cs)).1) 10 = none := by
      apply (strchr_eq_none _ _ (by decide)).mpr
      intro hm
      exact k1 ((List.takeWhile_prefix _).subset hm)
    simp only [fgets, hchr, fgetc_until_newline_none _ k2]

/-! ## Lemmas on the loop of `gi_build` -/

theorem from_string_exit_user_input (string : List Nat) (f : Failure)
    (h : itermcolor_item_from_string string = .exit f) : f.is_user_input := by
  rcases line_cases string with hno | ⟨label, mid, tail, hs, hl, hm⟩
  · rw [from_string_missing string hno] at h
    cases h
    trivial
  · rw [hs, from_string_token label mid tail hl hm] at h
    split_ifs at h <;> cases h <;> trivial

theorem append_item_ok (dict : xml_node) (item : itermcolor_item)
    (h : dict.type = .XCT_XML_NODE_LIST) :
    ∃ result, xml_node_append_itermcolor_item dict item = .ok result ∧
      result.type = .XCT_XML_NODE_LIST := by
  obtain ⟨c, h1, _⟩ := append_content_cons dict
    (string_node (cstr "key") item.key) [color_dict_node item.dict] h
  rw [← append_item_eq] at h1
  exact ⟨_, h1, h⟩

theorem fgets_read_length : ∀ (n : Nat) (t : List Nat),
    (fgets_read n t).2.length ≤ t.length := by
  intro n
  induction n with
  | zero => intro t; simp [fgets_read]
  | succ n ih =>
    intro t
    cases t with
    | nil => simp [fgets_read]
    | cons c cs =>
      simp only [fgets_read]
      split_ifs
      · simp
      · have := ih cs
        simp only [List.length_cons]
        omega

theorem fgets_length (n : Nat) (t buf rest : List Nat)
    (h : fgets (n + 2) t = some (buf, rest)) : rest.length < t.length := by
  cases t with
  | nil => simp [fgets] at h
  | cons c cs =>
    simp only [fgets, Nat.add_sub_cancel, fgets_read, Option.some.injEq] at h
    split_ifs at h
    · cases h
      simp
    · cases h
      have := fgets_read_length n cs
      simp only [List.length_cons]
      omega

theorem fgetc_until_newline_length : ∀ (t rest : List Nat),
    fgetc_until_newline t = some rest → rest.length < t.length := by
  intro t
  induction t with
  | nil => intro rest h; simp [fgetc_until_newline] at h
  | cons c cs ih =>
    intro rest h
    simp only [fgetc_until_newline] at h
    split_ifs at h
    · cases h
      simp
    · have := ih rest h
      simp only [List.length_cons]
      omega

/-- Every round of the loop ends the loop at the end of the stream, ends the program with a
failure of the parser, hangs, or goes on with a shorter stream. -/
theorem gi_build_iteration_progress (s : loop_state) (h : s.dict.type = .XCT_XML_NODE_LIST) :
    match gi_build_iteration s with
    | .eof => s.istream = []
    | .exits f _ => f.is_user_input
    | .hangs _ => True
    | .next s2 => s2.istream.length < s.istream.length ∧ s2.dict.type = .XCT_XML_NODE_LIST := by
  unfold gi_build_iteration
  cases hf : fgets (line_max_col + 1) s.istream with
  | none =>
    cases hst : s.istream with
    | nil => simp
    | cons c cs => simp [fgets, hst] at hf
  | some p =>
    obtain ⟨buf, rest⟩ := p
    have hrest : rest.length < s.istream.length := fgets_length 79 _ _ _ hf
    simp only
    cases hchr : strchr (c_string buf) 10 with
    | some line_end =>
      simp only
      cases hp : itermcolor_item_from_string
          ((c_string buf).take (strlen (c_string buf) - strlen line_end)) with
      | exit f => exact from_string_exit_user_input _ f hp
      | ok item =>
        obtain ⟨d, hd, hdt⟩ := append_item_ok s.dict item h
        simp only [hd]
        exact ⟨hrest, hdt⟩
    | none =>
      simp only
      cases hg : fgetc_until_newline rest with
      | none => trivial
      | some rest2 =>
        have hrest2 := fgetc_until_newline_length rest rest2 hg
        simp only
        cases hp : itermcolor_item_from_string (c_string buf) with
        | exit f => exact from_string_exit_user_input _ f hp
        | ok item =>
          obtain ⟨d, hd, hdt⟩ := append_item_ok s.dict item h
          simp only [hd]
          exact ⟨by omega, hdt⟩

/-- The loop ends within one round more than the stream has bytes. -/
theorem gi_build_loop_total : ∀ (fuel : Nat) (s : loop_state),
    s.istream.length < fuel → s.dict.type = .XCT_XML_NODE_LIST →
    ∃ r, gi_build_loop fuel s = some r ∧
      match r with
      | .eof dict _ => dict.type = .XCT_XML_NODE_LIST
      | .exits f _ => f.is_user_input
      | .hangs _ => True := by
  intro fuel
  induction fuel with
  | zero => intro s h _; omega
  | succ fuel ih =>
    intro s hlen hty
    have hp := gi_build_iteration_progress s hty
    simp only [gi_build_loop]
    cases hi : gi_build_iteration s with
    | eof => exact ⟨_, rfl, hty⟩
    | exits f e =>
      rw [hi] at hp
      exact ⟨_, rfl, hp⟩
    | hangs e => exact ⟨_, rfl, trivial⟩
    | next s2 =>
      rw [hi] at hp
      exact ih s2 (by omega) hp.2

theorem gi_build_loop_mono : ∀ (fuel : Nat) (s : loop_state) (r : loop_end),
    gi_build_loop fuel s = some r → ∀ k, gi_build_loop (fuel + k) s = some r := by
  intro fuel
  induction fuel with
  | zero => intro s r h; simp [gi_build_loop] at h
  | succ fuel ih =>
    intro s r h k
    have e : fuel + 1 + k = (fuel + k) + 1 := by omega
    rw [e]
    simp only [gi_build_loop] at h ⊢
    cases hi : gi_build_iteration s with
    | eof => rw [hi] at h; exact h
    | exits f e => rw [hi] at h; exact h
    | hangs e => rw [hi] at h; exact h
    | next s2 =>
      rw [hi] at h
      exact ih s2 r h k

theorem input_of_lines_length (lines : List (List Nat)) :
    lines.length ≤ (input_of_lines lines).length := by
  induction lines with
  | nil => simp [input_of_lines]
  | cons l ls ih =>
    simp only [input_of_lines, List.length_cons, List.length_append]
    omega

/-- The loop on a stream that starts with lines that all parse: the loop goes on after
them with the nodes of their records appended to the `dict` node. -/
theorem gi_build_loop_lines (lines : List (List Nat)) (items : List itermcolor_item)
    (h : List.Forall₂ (fun line item => 10 ∉ line ∧ 0 ∉ line ∧
      itermcolor_item_from_string (line.take 80) = .ok item) lines items) :
    ∀ (s : loop_state) (rest : List Nat), s.istream = input_of_lines lines ++ rest →
      s.dict.type = .XCT_XML_NODE_LIST →
      ∃ dict stderr, append_all s.dict items = .ok dict ∧
        ∀ fuel, gi_build_loop (lines.length + fuel) s =
          gi_build_loop fuel { istream := rest, line_count := s.line_count + lines.length,
                               dict := dict, stderr := stderr } := by
  induction h with
  | nil =>
    intro s rest hs _
    refine ⟨s.dict, s.stderr, rfl, ?_⟩
    intro fuel
    simp only [List.length_nil, Nat.zero_add, Nat.add_zero]
    simp only [input_of_lines, List.nil_append] at hs
    rw [← hs]
  | @cons line item lines items hline _ ih =>
    intro s rest hs hty
    obtain ⟨h10, h0, hparse⟩ := hline
    have hs2 : s.istream = line ++ 10 :: (input_of_lines lines ++ rest) := by
      rw [hs]
      simp [input_of_lines]
    have hit := gi_build_iteration_line s line _ hs2 h10 h0
    obtain ⟨d, hd, hdt⟩ := append_item_ok s.dict item hty
    rw [hparse] at hit
    simp only [hd] at hit
    obtain ⟨dict, stderr, ha, hloop⟩ := ih
      { istream := input_of_lines lines ++ rest, line_count := s.line_count + 1, dict := d,
        stderr := if line.length < 80 then s.stderr
          else s.stderr ++ too_long_warning (s.line_count + 1) } rest rfl hdt
    refine ⟨dict, stderr, ?_, ?_⟩
    · simp only [append_all, hd]
      exact ha
    · intro fuel
      have e : (line :: lines).length + fuel = (lines.length + fuel) + 1 := by
        simp only [List.length_cons]
        omega
      rw [e]
      simp only [gi_build_loop, hit]
      rw [hloop fuel]
      simp only [List.length_cons]
      have e2 : s.line_count + 1 + lines.length = s.line_count + (lines.length + 1) := by omega
      rw [e2]

/-! ## Lemmas on `gi_build` -/

theorem gi_build_of_loop (istream : List Nat) (r : loop_end) (fuel : Nat)
    (hfuel : fuel ≤ istream.length + 1)
    (h : gi_build_loop fuel (initial_state istream) = some r) :
    gi_build istream = some (run_of_loop_end r) := by
  have h2 := gi_build_loop_mono fuel _ r h (istream.length + 1 - fuel)
  have e : fuel + (istream.length + 1 - fuel) = istream.length + 1 := by omega
  rw [e] at h2
  unfold gi_build
  simp only [initial_state] at h2
  simp only [h2]
  cases r <;> rfl

theorem gi_build_total (istream : List Nat) :
    ∃ r, gi_build istream = some (run_of_loop_end r) ∧
      match r with
      | .eof dict _ => dict.type = .XCT_XML_NODE_LIST
      | .exits f _ => f.is_user_input
      | .hangs _ => True := by
  obtain ⟨r, h1, h2⟩ := gi_build_loop_total (istream.length + 1) (initial_state istream)
    (by simp [initial_state]) rfl
  exact ⟨r, gi_build_of_loop istream r _ (le_refl _) h1, h2⟩

theorem gi_build_loop_eof (fuel : Nat) (s : loop_state) (h : s.istream = []) :
    gi_build_loop (fuel + 1) s = some (.eof s.dict s.stderr) := by
  simp [gi_build_loop, gi_build_iteration, fgets, h]

theorem append_all_content (items : List itermcolor_item) :
    ∀ node : xml_node, node.type = .XCT_XML_NODE_LIST →
      (node.content = .NULL ∧ node.count = 0 ∨
        ∃ xs, node.content = .node_list xs ∧ node.count = xs.length) →
      ∃ result, append_all node items = .ok result ∧
        (result.content = .NULL ∧ result.count = 0 ∨
          ∃ xs, result.content = .node_list xs ∧ result.count = xs.length) := by
  induction items with
  | nil => intro node _ h; exact ⟨node, rfl, h⟩
  | cons item items ih =>
    intro node hty hc
    obtain ⟨capacity, h1, _, _⟩ := append_content_cons node
      (string_node (cstr "key") item.key) [color_dict_node item.dict] hty
    rw [← append_item_eq] at h1
    have hcount : node.count = node.children.length := by
      rcases hc with ⟨c1, c2⟩ | ⟨xs, c1, c2⟩
      · simp [xml_node.children, c1, c2]
      · simp [xml_node.children, c1, c2]
    obtain ⟨result, r1, r2⟩ := ih
      { node with
        content := .node_list (node.children ++
          [string_node (cstr "key") item.key, color_dict_node item.dict])
        count := node.count + [string_node (cstr "key") item.key,
          color_dict_node item.dict].length
        capacity := capacity } hty
      (Or.inr ⟨_, rfl, by simp [hcount]⟩)
    exact ⟨result, by simp only [append_all, h1]; exact r1, r2⟩

theorem xml_fprintln_children (level : Nat) (node : xml_node)
    (hty : node.type = .XCT_XML_NODE_LIST)
    (hc : node.content = .NULL ∧ node.count = 0 ∨
      ∃ xs, node.content = .node_list xs ∧ node.count = xs.length) :
    xml_fprintln level node =
      pad level ++ cstr "<" ++ node.tag ++ attributes_text node.attributes ++ cstr ">\n"
        ++ (node.children.map (xml_fprintln (level + 1))).flatten
        ++ pad level ++ cstr "</" ++ node.tag ++ cstr ">\n" := by
  obtain ⟨tag, attributes, type, content, count, capacity⟩ := node
  simp only at hty hc
  subst hty
  rcases hc with ⟨c1, c2⟩ | ⟨xs, c1, c2⟩
  · subst c1
    rw [xml_fprintln_null]
    simp [xml_node.children]
  · subst c1
    subst c2
    rw [xml_fprintln_list, xml_fprintln_loop_all]
    simp [xml_node.children]

/-- The run of `gi_build` on lines that all parse. -/
theorem gi_build_lines (lines : List (List Nat)) (items : List itermcolor_item)
    (h : List.Forall₂ (fun line item => 10 ∉ line ∧ 0 ∉ line ∧
      itermcolor_item_from_string (line.take 80) = .ok item) lines items) :
    ∃ dict stderr,
      append_all (xml_node_create (cstr "dict") none .XCT_XML_NODE_LIST) items = .ok dict ∧
      gi_build (input_of_lines lines) = some (run_of_loop_end (.eof dict stderr)) := by
  obtain ⟨dict, stderr, ha, hloop⟩ := gi_build_loop_lines lines items h
    (initial_state (input_of_lines lines)) [] (by simp [initial_state]) rfl
  refine ⟨dict, stderr, ha, ?_⟩
  apply gi_build_of_loop _ _ (lines.length + 1)
  · have := input_of_lines_length lines
    omega
  · rw [hloop 1]
    exact gi_build_loop_eof 0 _ rfl

theorem plist_text (dict : xml_node) (items : List itermcolor_item)
    (ha : append_all (xml_node_create (cstr "dict") none .XCT_XML_NODE_LIST) items = .ok dict) :
    xml_fprintln 0 (plist_node dict) =
      cstr "<plist version=\x221.0\x22>\n" ++ (cstr "  <dict>\n" ++
        (((item_nodes items).map (xml_fprintln 2)).flatten ++
          (cstr "  </dict>\n" ++ cstr "</plist>\n"))) := by
  obtain ⟨d1, s1, s2, s3, s4, s5, s6, _, _⟩ :=
    append_all_spec items (xml_node_create (cstr "dict") none .XCT_XML_NODE_LIST) rfl
  obtain ⟨d2, c1, c2⟩ :=
    append_all_content items (xml_node_create (cstr "dict") none .XCT_XML_NODE_LIST) rfl
      (Or.inl ⟨rfl, rfl⟩)
  rw [ha] at s1 c1
  cases s1
  cases c1
  have hch : dict.children = item_nodes items := by rw [s2]; rfl
  have htag : dict.tag = cstr "dict" := s4
  have hattr : dict.attributes = none := s5
  have e1 : pad 0 ++ cstr "<" ++ cstr "plist"
      ++ attributes_text (some (cstr "version=\x221.0\x22")) ++ cstr ">\n"
      = cstr "<plist version=\x221.0\x22>\n" := by decide
  have e2 : pad 1 ++ cstr "<" ++ cstr "dict" ++ attributes_text none ++ cstr ">\n"
      = cstr "  <dict>\n" := by decide
  have e3 : pad 1 ++ cstr "</" ++ cstr "dict" ++ cstr ">\n" = cstr "  </dict>\n" := by decide
  have e4 : pad 0 ++ cstr "</" ++ cstr "plist" ++ cstr ">\n" = cstr "</plist>\n" := by decide
  rw [plist_node, xml_fprintln_list, e1]
  simp only [xml_fprintln_loop, List.append_nil]
  rw [xml_fprintln_children 1 dict s6 c2, htag, hattr, e2, hch]
  have e3b : ∀ t, pad 1 ++ (cstr "</" ++ (cstr "dict" ++ (cstr ">\n" ++ t)))
      = cstr "  </dict>\n" ++ t := by
    intro t
    rw [← e3]
    simp only [List.append_assoc]
  simp only [List.append_assoc] at e4 ⊢
  rw [e4, e3b]

/-! ## The conversion -/

/-- C13: when the lines before a line all parse and the line fails to parse, `gi_build` ends
the program with the failure of that line and has written nothing to `ostream`, neither the
headers nor anything of the records parsed before; the failure is one of the three of the
parser.  For every input, `gi_build` has written to `ostream` only if it returns. -/
theorem C13_abort_without_output (before : List (List Nat)) (items : List itermcolor_item)
    (l after : List Nat) (f : Failure)
    (hbefore : List.Forall₂ (fun line item => 10 ∉ line ∧ 0 ∉ line ∧
      itermcolor_item_from_string (line.take 80) = .ok item) before items)
    (hl : 10 ∉ l) (h0 : 0 ∉ l)
    (hf : itermcolor_item_from_string (l.take 80) = .exit f) :
    (∃ stderr, gi_build (input_of_lines before ++ (l ++ 10 :: after)) =
      some { ending := .exits f, stderr := stderr, ostream := [] }) ∧
    (∃ msg, f = .MissingColor msg ∨ f = .WrongLength msg ∨ f = .InvalidDigit msg) ∧
    (∀ istream, ∃ run, gi_build istream = some run ∧
      (run.ostream ≠ [] → run.ending = .returns)) := by
  refine ⟨?_, ?_, ?_⟩
  · obtain ⟨dict, stderr, _, hloop⟩ := gi_build_loop_lines before items hbefore
      (initial_state (input_of_lines before ++ (l ++ 10 :: after))) (l ++ 10 :: after)
      (by simp [initial_state]) rfl
    have hit := gi_build_iteration_line
      { istream := l ++ 10 :: after,
        line_count := (initial_state (input_of_lines before ++ (l ++ 10 :: after))).line_count
          + before.length,
        dict := dict, stderr := stderr } l after rfl hl h0
    rw [hf] at hit
    have h1 := hloop 1
    simp only [gi_build_loop, hit] at h1
    have h2 := gi_build_of_loop _ _ (before.length + 1) (by
      have := input_of_lines_length before
      simp only [List.length_append]
      omega) h1
    exact ⟨_, h2⟩
  · have := from_string_exit_user_input _ f hf
    cases f <;> simp [Failure.is_user_input] at this ⊢
  · intro istream
    obtain ⟨r, h1, _⟩ := gi_build_total istream
    refine ⟨_, h1, ?_⟩
    cases r <;> simp [run_of_loop_end]

/-- C13 (witness): the input `A: #000000`, newline, `Bad Line`, newline. -/
theorem C13_abort_without_output_witness :
    (List.Forall₂ (fun line item => 10 ∉ line ∧ 0 ∉ line ∧
        itermcolor_item_from_string (line.take 80) = .ok item)
      [cstr "A: #000000"] [⟨cstr "A", ⟨byte_channel 0, byte_channel 0, byte_channel 0⟩⟩] ∧
      10 ∉ cstr "Bad Line" ∧ 0 ∉ cstr "Bad Line" ∧
      itermcolor_item_from_string ((cstr "Bad Line").take 80) =
        .exit (.MissingColor (cstr "Error: Bad Line missing hex color definition\n"))) ∧
    ∃ stderr, gi_build (input_of_lines [cstr "A: #000000"] ++ (cstr "Bad Line" ++ 10 :: [])) =
      some { ending := .exits (.MissingColor
               (cstr "Error: Bad Line missing hex color definition\n")),
             stderr := stderr, ostream := [] } :=
  have hb : List.Forall₂ (fun line item => 10 ∉ line ∧ 0 ∉ line ∧
        itermcolor_item_from_string (line.take 80) = .ok item)
      [cstr "A: #000000"] [⟨cstr "A", ⟨byte_channel 0, byte_channel 0, byte_channel 0⟩⟩] :=
    List.Forall₂.cons ⟨by decide, by decide, by decide⟩ List.Forall₂.nil
  ⟨⟨hb, by decide, by decide, by decide⟩,
   (C13_abort_without_output _ _ (cstr "Bad Line") [] _ hb (by decide) (by decide)
      (by decide)).1⟩

/-- C14: for lines that all parse, `gi_build` returns and has written to `ostream` the line
of `xml_header`, the line of `doctype_header`, and the rendering at level 0 of the node
`plist` with the attributes `version="1.0"` and one child, the node `dict`, whose children
are the `key` and `dict` nodes of the records in the order of the lines.  Without any line
the text after the two headers is `<plist version="1.0">`, `  <dict>`, `  </dict>`,
`</plist>`, each followed by a newline. -/
theorem C14_document (lines : List (List Nat)) (items : List itermcolor_item)
    (h : List.Forall₂ (fun line item => 10 ∉ line ∧ 0 ∉ line ∧
      itermcolor_item_from_string (line.take 80) = .ok item) lines items) :
    ∃ stderr dict,
      gi_build (input_of_lines lines) =
        some { ending := .returns, stderr := stderr,
               ostream := xml_header ++ cstr "\n" ++ doctype_header ++ cstr "\n" ++
                 xml_fprintln 0 ⟨cstr "plist", some (cstr "version=\x221.0\x22"),
                   .XCT_XML_NODE_LIST, .node_list [dict], 1, 16⟩ } ∧
      dict.tag = cstr "dict" ∧ dict.attributes = none ∧ dict.type = .XCT_XML_NODE_LIST ∧
      dict.children = item_nodes items ∧ dict.count = 2 * items.length ∧
      xml_fprintln 0 ⟨cstr "plist", some (cstr "version=\x221.0\x22"),
          .XCT_XML_NODE_LIST, .node_list [dict], 1, 16⟩ =
        cstr "<plist version=\x221.0\x22>\n" ++ (cstr "  <dict>\n" ++
          (((item_nodes items).map (xml_fprintln 2)).flatten ++
            (cstr "  </dict>\n" ++ cstr "</plist>\n"))) ∧
      xml_header = cstr "<?xml version=\x221.0\x22 encoding=\x22UTF-8\x22?>" ∧
      doctype_header = cstr
        "<!DOCTYPE plist PUBLIC \x22-//Apple//DTD PLIST 1.0//EN\x22 \x22http://www.apple.com/DTDs/PropertyList-1.0.dtd\x22>" ∧
      gi_build [] =
        some { ending := .returns, stderr := [],
               ostream := xml_header ++ cstr "\n" ++ doctype_header ++ cstr "\n" ++
                 cstr "<plist version=\x221.0\x22>\n  <dict>\n  </dict>\n</plist>\n" } := by
  obtain ⟨dict, stderr, ha, hg⟩ := gi_build_lines lines items h
  obtain ⟨d1, s1, s2, s3, s4, s5, s6, _, _⟩ :=
    append_all_spec items (xml_node_create (cstr "dict") none .XCT_XML_NODE_LIST) rfl
  rw [ha] at s1
  cases s1
  refine ⟨stderr, dict, hg, s4, s5, s6, ?_, ?_, plist_text dict items ha, rfl, rfl, by decide!⟩
  · rw [s2]
    rfl
  · rw [s3]
    simp [xml_node_create]

/-- C14 (witness): the input `A: #000000`, newline. -/
theorem C14_document_witness :
    List.Forall₂ (fun line item => 10 ∉ line ∧ 0 ∉ line ∧
        itermcolor_item_from_string (line.take 80) = .ok item)
      [cstr "A: #000000"] [⟨cstr "A", ⟨byte_channel 0, byte_channel 0, byte_channel 0⟩⟩] ∧
    ∃ run, gi_build (input_of_lines [cstr "A: #000000"]) = some run ∧
      run.ending = .returns :=
  have hb : List.Forall₂ (fun line item => 10 ∉ line ∧ 0 ∉ line ∧
        itermcolor_item_from_string (line.take 80) = .ok item)
      [cstr "A: #000000"] [⟨cstr "A", ⟨byte_channel 0, byte_channel 0, byte_channel 0⟩⟩] :=
    List.Forall₂.cons ⟨by decide, by decide, by decide⟩ List.Forall₂.nil
  ⟨hb,
   match C14_document _ _ hb with
   | ⟨_, _, hg, _⟩ => ⟨_, hg, rfl⟩⟩

/-- C17: for every input `gi_build` returns, never returns, or ends the program with one of
the three failures of the parser: it never ends with the failure of
`xml_node_set_string_content` or of `xml_node_append_xml_node_content` on a node of the
other type; and the type of every node is one of the two the serializer renders. -/
theorem C17_no_programming_error (istream : List Nat) :
    (∃ run, gi_build istream = some run ∧
      (run.ending = .returns ∨ run.ending = .hangs ∨
        ∃ msg, run.ending = .exits (.MissingColor msg) ∨
          run.ending = .exits (.WrongLength msg) ∨
          run.ending = .exits (.InvalidDigit msg)) ∧
      ∀ msg, run.ending ≠ .exits (.NotString msg) ∧ run.ending ≠ .exits (.NotNodeList msg)) ∧
    ∀ node : xml_node, node.type = .XCT_STRING ∨ node.type = .XCT_XML_NODE_LIST := by
  constructor
  · obtain ⟨r, h1, h2⟩ := gi_build_total istream
    refine ⟨_, h1, ?_⟩
    cases r with
    | eof dict stderr => simp [run_of_loop_end]
    | hangs stderr => simp [run_of_loop_end]
    | exits f stderr =>
      cases f <;> simp [Failure.is_user_input] at h2 <;> simp [run_of_loop_end]
  · intro node
    cases h : node.type
    · exact Or.inl rfl
    · exact Or.inr rfl

/-- C18 (failing input): on the input `X: #112233` without a newline after it, `gi_build`
writes the warning for a line too long and never returns: the loop of lines 335-336 waits
for a newline that `fgetc` never gives.  With the newline it returns. -/
theorem C18_hangs_without_final_newline :
    gi_build (cstr "X: #112233") =
      some { ending := .hangs,
             stderr := cstr "Warning: Line 1 too long, ignoring the characters after column 80",
             ostream := [] } ∧
    (gi_build (cstr "X: #112233\n")).map (fun run => (run.ending, run.stderr)) =
      some (.returns, []) := by
  constructor <;> decide

/-- C19 (failing input): a line of exactly 80 characters followed by a newline is handled
as a line too long, the warning is written, though nothing of it is dropped; a line of 79
characters gives no warning. -/
theorem C19_warning_for_80_characters :
    (cstr "X:" ++ List.replicate 71 32 ++ cstr "#112233").length = 80 ∧
    (gi_build (cstr "X:" ++ List.replicate 71 32 ++ cstr "#112233" ++ cstr "\n")).map
        (fun run => (run.ending, run.stderr)) =
      some (.returns,
        cstr "Warning: Line 1 too long, ignoring the characters after column 80") ∧
    (gi_build (cstr "X:" ++ List.replicate 70 32 ++ cstr "#112233" ++ cstr "\n")).map
        (fun run => (run.ending, run.stderr)) =
      some (.returns, []) := by
  refine ⟨by decide, by decide!, by decide!⟩

end GenerateItermcolors
